import Mathlib

/-!
Verification of the AntNet simulation core (graph / pheromone field / agent
state machine) against its natural-language specification.

The JavaScript sources are shallowly embedded: JS objects and `Map`s become
association lists (`List (key × value)`) so that insertion/iteration order is
preserved exactly as in the source; JS numbers become `ℚ` (exact arithmetic;
the sources only add, multiply, compare, take `Math.min` and `Math.floor`);
`Infinity` valued distances become `Option ℕ` with `none` standing for
`Infinity`; `Math.random` draws are threaded explicitly as a list of values;
loops that are not structurally recursive take an explicit fuel argument, and
the fuel needed is proved sufficient where termination matters.
-/

set_option maxHeartbeats 1000000
set_option maxRecDepth 4000
set_option linter.unusedSectionVars false

namespace AntNet

/-! ## Association-list helpers (JS objects and Maps)

JS plain objects and `Map`s keep keys in insertion order; updating an existing
key keeps its position.  `aset` mirrors that. -/

variable {α : Type} {β : Type} [DecidableEq α]

/-- First-match lookup in an association list (JS property access). -/
def alookup : List (α × β) → α → Option β
  | [], _ => none
  | (k0, v0) :: rest, k => if k0 = k then some v0 else alookup rest k

/-- Set a key to a value: replaces the first occurrence in place, otherwise
appends at the end (JS object/`Map` assignment semantics). -/
def aset : List (α × β) → α → β → List (α × β)
  | [], k, v => [(k, v)]
  | (k0, v0) :: rest, k, v =>
      if k0 = k then (k, v) :: rest else (k0, v0) :: aset rest k v

/-- The keys of an association list. -/
def akeys (l : List (α × β)) : List α := l.map Prod.fst

/-! ## Environment graph (src/server/graph.js)

`Node` carries the per-node mutable state created by `Graph.addNode`.  The
source also stores the node id inside the node object; here the id is the
association-list key.  `distanceToNest = Infinity` is modelled as `none`. -/

/-- A 3D position (`{x, y, z}` in the source). -/
structure Pos where
  x : ℚ
  y : ℚ
  z : ℚ
deriving DecidableEq, Repr

/-- Per-node state, as initialised by `Graph.addNode` (graph.js lines 20-32). -/
structure Node where
  type : String
  position : Pos
  size : ℕ
  capacity : ℚ
  resources : ℚ
  distanceToNest : Option ℕ
  boosted : Bool
  disrupted : Bool
  boostTimer : ℚ
  disruptTimer : ℚ
  resourceTimer : ℚ
deriving DecidableEq, Repr

/-- Optional fields of the `nodeData` argument of `Graph.addNode`.  The source
reads them with `||`-defaults; none of the call sites pass falsy non-default
values, so `Option.getD` is an exact model of every call that occurs. -/
structure NodeData where
  id : Option Nat := none
  type : Option String := none
  position : Option Pos := none
  size : Option Nat := none
  capacity : Option ℚ := none
  resources : Option ℚ := none
deriving DecidableEq, Repr

/-- The graph: `this.nodes` and `this.edges` of the `Graph` class, as
insertion-ordered association lists.  Node ids (random strings in the source,
produced by `generateId`) are modelled as natural numbers; fresh ids are
supplied explicitly where the source would call `generateId()`. -/
structure Graph where
  nodes : List (Nat × Node)
  edges : List (Nat × List Nat)
deriving DecidableEq, Repr

/-- The empty graph (the `Graph` constructor). -/
def Graph.empty : Graph := { nodes := [], edges := [] }

/-- `Graph.addNode` (graph.js lines 17-37): stores a node with defaulted
fields and resets its adjacency list; returns the id used. -/
def Graph.addNode (g : Graph) (freshId : Nat) (data : NodeData) : Nat × Graph :=
  let id := data.id.getD freshId
  (id,
    { nodes := aset g.nodes id
        { type := data.type.getD "NORMAL"
          position := data.position.getD ⟨0, 0, 0⟩
          size := data.size.getD 1
          capacity := data.capacity.getD 10
          resources := data.resources.getD 0
          distanceToNest := none
          boosted := false
          disrupted := false
          boostTimer := 0
          disruptTimer := 0
          resourceTimer := 0 }
      edges := aset g.edges id [] })

/-- `Graph.getNeighbors` (graph.js lines 84-86): `this.edges[nodeId] || []`. -/
def Graph.getNeighbors (g : Graph) (nodeId : Nat) : List Nat :=
  (alookup g.edges nodeId).getD []

/-- `Graph.hasEdge` (graph.js lines 75-77):
`this.edges[node1Id]?.includes(node2Id)`. -/
def Graph.hasEdge (g : Graph) (node1Id node2Id : Nat) : Bool :=
  (g.getNeighbors node1Id).contains node2Id

/-- `Graph.addEdge` (graph.js lines 53-67): fails on unknown endpoints, is a
no-op on an existing edge, otherwise pushes each endpoint onto the other's
adjacency list (sequentially, exactly as the two `push` calls do — for a
self-edge both pushes hit the same list). -/
def Graph.addEdge (g : Graph) (node1Id node2Id : Nat) : Bool × Graph :=
  if (alookup g.nodes node1Id).isNone ∨ (alookup g.nodes node2Id).isNone then
    (false, g)
  else if g.hasEdge node1Id node2Id then
    (true, g)
  else
    let edges1 := aset g.edges node1Id (g.getNeighbors node1Id ++ [node2Id])
    let edges2 := aset edges1 node2Id ((alookup edges1 node2Id).getD [] ++ [node1Id])
    (true, { g with edges := edges2 })

/-- `Graph.getNode` (graph.js lines 115-117). -/
def Graph.getNode (g : Graph) (nodeId : Nat) : Option Node :=
  alookup g.nodes nodeId

/-- `Graph.getNodePosition` (graph.js lines 124-127). -/
def Graph.getNodePosition (g : Graph) (nodeId : Nat) : Option Pos :=
  (alookup g.nodes nodeId).map Node.position

/-- `Graph.arePositionsEqual` (graph.js lines 200-207): compares only the x
and z coordinates, within tolerance 0.1. -/
def Graph.arePositionsEqual (pos1 pos2 : Pos) : Bool :=
  |pos1.x - pos2.x| < (1 : ℚ) / 10 ∧ |pos1.z - pos2.z| < (1 : ℚ) / 10

/-- `Graph.getNodeIdByPosition` (graph.js lines 181-192): first matching node
in iteration order. -/
def Graph.getNodeIdByPosition (g : Graph) (position : Pos) : Option Nat :=
  (g.nodes.find? (fun kv => Graph.arePositionsEqual kv.2.position position)).map Prod.fst

/-! ### `Graph.calculateDistances` (graph.js lines 134-174)

Unit-weight breadth-first relaxation from the target over a FIFO queue with a
visited set.  `newDistance < neighbor.distanceToNest` with `Infinity` on the
right is always true, so the comparison against an `Option ℕ` distance is
`distImproves`.  A node whose own distance is still `Infinity` relaxes nothing
(`Infinity + 1 < x` is always false in the source), which is the `none` branch
of `bfsLoop`.  The `while` loop is modelled with fuel; `g.nodes.length + 1` is
proved sufficient below (`bfsLoop_runs_out`). -/

/-- `newDistance < neighbor.distanceToNest`, where `none` is `Infinity`. -/
def distImproves (newDistance : Nat) : Option Nat → Bool
  | none => true
  | some e => newDistance < e

/-- The inner `for (const neighborId of neighbors)` loop of
`calculateDistances`: skip visited neighbors, update and enqueue a neighbor
whose distance improves.  A neighbor id missing from the node table would
throw in the source; it is skipped here and cannot occur for the well-formed
graphs the algorithm is run on. -/
def Graph.bfsRelax (visited : List Nat) (newDistance : Nat) :
    List Nat → List (Nat × Node) → List Nat → List (Nat × Node) × List Nat
  | [], nodes, queue => (nodes, queue)
  | m :: ns, nodes, queue =>
      if m ∈ visited then Graph.bfsRelax visited newDistance ns nodes queue
      else
        match alookup nodes m with
        | none => Graph.bfsRelax visited newDistance ns nodes queue
        | some nd =>
            if distImproves newDistance nd.distanceToNest then
              Graph.bfsRelax visited newDistance ns
                (aset nodes m { nd with distanceToNest := some newDistance })
                (queue ++ [m])
            else Graph.bfsRelax visited newDistance ns nodes queue

/-- The `while (queue.length > 0)` loop of `calculateDistances`. -/
def Graph.bfsLoop (edges : List (Nat × List Nat)) :
    Nat → List (Nat × Node) → List Nat → List Nat → List (Nat × Node)
  | 0, nodes, _, _ => nodes
  | _ + 1, nodes, [], _ => nodes
  | fuel + 1, nodes, currentId :: rest, visited =>
      if currentId ∈ visited then Graph.bfsLoop edges fuel nodes rest visited
      else
        let visited1 := currentId :: visited
        match alookup nodes currentId with
        | none => Graph.bfsLoop edges fuel nodes rest visited1
        | some nd =>
            match nd.distanceToNest with
            | none => Graph.bfsLoop edges fuel nodes rest visited1
            | some cd =>
                let res := Graph.bfsRelax visited1 (cd + 1)
                  ((alookup edges currentId).getD []) nodes rest
                Graph.bfsLoop edges fuel res.1 res.2 visited1

/-- `Graph.calculateDistances` (graph.js lines 134-174): reset every distance
to `Infinity`, seed the target at 0 (when it exists), then run the queue. -/
def Graph.calculateDistances (g : Graph) (targetNodeId : Nat) : Graph :=
  let nodes0 := g.nodes.map (fun kv => (kv.1, { kv.2 with distanceToNest := none }))
  let nodes1 :=
    match alookup nodes0 targetNodeId with
    | some nd => aset nodes0 targetNodeId { nd with distanceToNest := some 0 }
    | none => nodes0
  { g with nodes := Graph.bfsLoop g.edges (g.nodes.length + 1) nodes1 [targetNodeId] [] }

/-! ### `Graph.findPath` (graph.js lines 216-280) and helpers

A*-style search.  The source heuristic (graph.js lines 289-298) is the
Euclidean 3D distance between node positions, which is irrational in general
and therefore not a `ℚ`; `findPath` is parameterized by the heuristic
function `h`, and the claims below either hold for every `h` or instantiate
`h` on a graph whose nodes all share one position, where the Euclidean
distance is identically 0 (witnessed via `heuristicSq`).

Two JS value subtleties are modelled exactly:
* node ids are non-empty strings in the source, so `while (cameFrom[current])`
  and `if (!this.nodes[...])` test existence — modelled as `Option` matches;
* `gScore` values are numbers, so `!gScore[neighborId]` is true both when the
  entry is missing and when it is `0` — the start node's `gScore` is `0`, so
  the start can be re-relaxed and re-parented (`gScoreMissingOrZero`).

The `while (openSet.length > 0)` loop and the `reconstructPath` loop are
modelled with fuel; `none` means the fuel ran out. -/

/-- Squared Euclidean distance between two node positions (the source
heuristic is its square root). -/
def Graph.heuristicSq (g : Graph) (node1Id node2Id : Nat) : Option ℚ :=
  match g.getNodePosition node1Id, g.getNodePosition node2Id with
  | some pos1, some pos2 =>
      some ((pos1.x - pos2.x) ^ 2 + (pos1.y - pos2.y) ^ 2 + (pos1.z - pos2.z) ^ 2)
  | _, _ => none

/-- The open-set scan of `findPath` (graph.js lines 230-242): strict `<`
keeps the first element attaining the minimal `fScore`. -/
def Graph.findPathLowest (fScore : List (Nat × ℚ)) :
    List Nat → Nat → ℚ → Nat
  | [], current, _ => current
  | n :: ns, current, lowest =>
      let fn := (alookup fScore n).getD 0
      if fn < lowest then Graph.findPathLowest fScore ns n fn
      else Graph.findPathLowest fScore ns current lowest

/-- `tentativeGScore < gScore[neighborId]` on an optional score; only reached
when the entry exists (short-circuit of `||` in the source). -/
def distQLt (t : ℚ) : Option ℚ → Bool
  | none => false
  | some v => t < v

/-- `!gScore[neighborId]`: true when the entry is missing or equals 0 (the JS
falsy test on a number). -/
def gScoreMissingOrZero (gScore : List (Nat × ℚ)) (n : Nat) : Bool :=
  match alookup gScore n with
  | none => true
  | some v => v = 0

/-- Search state of `findPath`: the open set and the three maps. -/
structure AStarState where
  openSet : List Nat
  cameFrom : List (Nat × Nat)
  gScore : List (Nat × ℚ)
  fScore : List (Nat × ℚ)
deriving DecidableEq, Repr

/-- The neighbor-relaxation loop of `findPath` (graph.js lines 253-275):
skip disrupted neighbors, and relax when `gScore` is falsy or improved.  A
neighbor missing from the node table would throw in the source and is skipped
here. -/
def Graph.findPathRelax (g : Graph) (h : Nat → Nat → ℚ) (endNodeId current : Nat) :
    List Nat → AStarState → AStarState
  | [], s => s
  | m :: ns, s =>
      match alookup g.nodes m with
      | none => Graph.findPathRelax g h endNodeId current ns s
      | some nd =>
          if nd.disrupted then Graph.findPathRelax g h endNodeId current ns s
          else
            let tentativeGScore := (alookup s.gScore current).getD 0 + 1
            if gScoreMissingOrZero s.gScore m ∨
                distQLt tentativeGScore (alookup s.gScore m) then
              Graph.findPathRelax g h endNodeId current ns
                { openSet := if s.openSet.contains m then s.openSet else s.openSet ++ [m]
                  cameFrom := aset s.cameFrom m current
                  gScore := aset s.gScore m tentativeGScore
                  fScore := aset s.fScore m (tentativeGScore + h m endNodeId) }
            else Graph.findPathRelax g h endNodeId current ns s

/-- `Graph.reconstructPath` (graph.js lines 306-315): walk the `cameFrom`
chain, prepending; fuelled because the chain may contain a cycle. -/
def Graph.reconstructPath :
    Nat → List (Nat × Nat) → Nat → List Nat → Option (List Nat)
  | 0, _, _, _ => none
  | fuel + 1, cameFrom, current, path =>
      match alookup cameFrom current with
      | some prev => Graph.reconstructPath fuel cameFrom prev (prev :: path)
      | none => some path

/-- The `while (openSet.length > 0)` loop of `findPath`. -/
def Graph.findPathLoop (g : Graph) (h : Nat → Nat → ℚ) (endNodeId : Nat) :
    Nat → AStarState → Option (List Nat)
  | 0, _ => none
  | fuel + 1, s =>
      match s.openSet with
      | [] => some []
      | o0 :: rest =>
          let current := Graph.findPathLowest s.fScore rest o0 ((alookup s.fScore o0).getD 0)
          let s1 := { s with openSet := s.openSet.erase current }
          if current = endNodeId then
            Graph.reconstructPath (fuel + 1) s1.cameFrom current [current]
          else
            Graph.findPathLoop g h endNodeId fuel
              (Graph.findPathRelax g h endNodeId current (g.getNeighbors current) s1)

/-- `Graph.findPath` (graph.js lines 216-280). -/
def Graph.findPath (g : Graph) (h : Nat → Nat → ℚ) (startNodeId endNodeId : Nat)
    (fuel : Nat) : Option (List Nat) :=
  Graph.findPathLoop g h endNodeId fuel
    { openSet := [startNodeId]
      cameFrom := []
      gScore := [(startNodeId, 0)]
      fScore := [(startNodeId, h startNodeId endNodeId)] }

/-! ## Ant agents (src/client/src/game/ant.js) and the colony (AntColony)

`Math.random()` draws are threaded as an explicit list `draws`; each consuming
operation pops the head (`headD 0` on an exhausted list — the theorems below
either supply enough draws or use deterministic code paths).  Code paths that
would throw a `TypeError` in the source (reading a property of a missing node,
interpolating from a `null` position) return `none`. -/

/-- Ant roles (closed enumeration; strings in the source). -/
inductive Role where
  | WORKER
  | SCOUT
  | SOLDIER
deriving DecidableEq, Repr

/-- Behavioral states of an ant (strings in the source). -/
inductive AntState where
  | EXPLORING
  | RETURNING
  | RESTING
  | FOLLOWING
deriving DecidableEq, Repr

/-- One ant (ant.js constructor, lines 12-37).  The random string `id` and the
THREE.js color object are irrelevant to the simulation logic; the color is
kept as its hex value. -/
structure Ant where
  currentNodeId : Nat
  previousNodeId : Option Nat
  role : Role
  state : AntState
  carrying : Option String
  memory : List Nat
  memorySize : Nat
  fatigue : ℚ
  path : List Nat
  position : Pos
  targetPosition : Option Pos
  movementProgress : ℚ
  movementSpeed : ℚ
  scale : ℚ
  colorHex : Nat
deriving DecidableEq, Repr

/-- The `Ant` constructor followed by `initRoleProperties` (ant.js lines
12-61). -/
def Ant.create (currentNodeId : Nat) (role : Role) : Ant :=
  let base : Ant :=
    { currentNodeId := currentNodeId
      previousNodeId := none
      role := role
      state := .EXPLORING
      carrying := none
      memory := [currentNodeId]
      memorySize := 5
      fatigue := 0
      path := []
      position := ⟨0, 0, 0⟩
      targetPosition := some ⟨0, 0, 0⟩
      movementProgress := 0
      movementSpeed := 0.05
      scale := 1
      colorHex := 0xFFFFFF }
  match role with
  | .SCOUT => { base with movementSpeed := base.movementSpeed * 1.5, memorySize := 8, colorHex := 0x00FFFF }
  | .WORKER => { base with scale := 0.9, colorHex := 0xFFAA00 }
  | .SOLDIER => { base with scale := 1.2, movementSpeed := base.movementSpeed * 0.8, colorHex := 0xFF5555 }

/-- Pheromone key `"fromId,toId,type"` (ids carry no commas, so the string key
is equivalent to the triple). -/
abbrev PherKey := Nat × Nat × String

/-- A stored pheromone entry (`{level}`; the `decayTimer` mentioned in the
constructor comment is never used). -/
structure PheromoneData where
  level : ℚ
deriving DecidableEq, Repr

/-- Colony configuration (part_003 lines 32-42), with the option defaults
already applied. -/
structure ColonyParams where
  maxAnts : Nat
  pheromoneDecayRate : ℚ
  antSpawnRate : ℚ
  initialAnts : Nat
  workerRatio : ℚ
  scoutRatio : ℚ
  soldierRatio : ℚ
deriving DecidableEq, Repr

/-- The default colony parameters (`options = {}`). -/
def ColonyParams.default : ColonyParams :=
  { maxAnts := 100
    pheromoneDecayRate := 0.05
    antSpawnRate := 0.1
    initialAnts := 10
    workerRatio := 0.7
    scoutRatio := 0.2
    soldierRatio := 0.1 }

/-- The mutable state of `AntColony` (part_003 lines 13-49). -/
structure AntColony where
  graph : Graph
  ants : List Ant
  nestId : Nat
  pheromones : List (PherKey × PheromoneData)
  resources : List (String × ℚ)
  params : ColonyParams
  spawnTimer : ℚ
deriving DecidableEq, Repr

/-- `AntColony.depositPheromone` (part_003 lines 202-219): clamped add on the
forward key, then clamped add of half the amount on the reverse key.  The
reverse read happens after the forward write, exactly as in the source (for a
self-pair the two keys coincide and the second update sees the first). -/
def AntColony.depositPheromone (c : AntColony) (fromId toId : Nat) (type : String)
    (amount : ℚ) : AntColony :=
  let key : PherKey := (fromId, toId, type)
  let reverseKey : PherKey := (toId, fromId, type)
  let current := (alookup c.pheromones key).getD ⟨0⟩
  let ph1 := aset c.pheromones key ⟨min (current.level + amount) 5⟩
  let reverseCurrent := (alookup ph1 reverseKey).getD ⟨0⟩
  let ph2 := aset ph1 reverseKey ⟨min (reverseCurrent.level + amount * 0.5) 5⟩
  { c with pheromones := ph2 }

/-- `AntColony.updatePheromones` (part_003 lines 183-193): multiply every
level by `(1 - decayRate*dt)` and delete entries below 0.01. -/
def AntColony.updatePheromones (c : AntColony) (deltaTime : ℚ) : AntColony :=
  { c with pheromones := c.pheromones.filterMap (fun kv =>
      let newLevel := kv.2.level * (1 - c.params.pheromoneDecayRate * deltaTime)
      if newLevel < 0.01 then none else some (kv.1, ⟨newLevel⟩)) }

/-- `AntColony.getPheromoneLevel` (part_003 lines 228-232). -/
def AntColony.getPheromoneLevel (c : AntColony) (fromId toId : Nat) (type : String) : ℚ :=
  ((alookup c.pheromones (fromId, toId, type)).map PheromoneData.level).getD 0

/-- `AntColony.addResource` (part_003 lines 239-245). -/
def AntColony.addResource (c : AntColony) (resourceType : String) (amount : ℚ) : AntColony :=
  let newAmount := ((alookup c.resources resourceType).getD 0) + amount
  { c with resources := aset c.resources resourceType newAmount }

/-- The spawn ratio configured for a role. -/
def ColonyParams.spawnRatio (params : ColonyParams) : Role → ℚ
  | .WORKER => params.workerRatio
  | .SCOUT => params.scoutRatio
  | .SOLDIER => params.soldierRatio

/-- Number of ants of a given role (the `roleCounts` tally). -/
def AntColony.roleCount (c : AntColony) (role : Role) : Nat :=
  (c.ants.filter (fun a => a.role = role)).length

/-- `Math.floor(totalAnts * ratio)` — the desired count for a role. -/
def AntColony.desiredCount (c : AntColony) (role : Role) : ℤ :=
  ⌊(c.ants.length : ℚ) * c.params.spawnRatio role⌋

/-- `desired − actual` for a role. -/
def AntColony.roleDeficit (c : AntColony) (role : Role) : ℤ :=
  c.desiredCount role - (c.roleCount role : ℤ)

/-- `AntColony.determineAntRole` (part_003 lines 144-177): the
`for (const role in roleCounts)` loop unrolled over the literal key order
WORKER, SCOUT, SOLDIER, with `biggestDeficit` starting at 0 and a strict `>`
comparison. -/
def AntColony.determineAntRole (c : AntColony) : Role :=
  let acc0 : ℤ × Role := (0, .WORKER)
  let acc1 := if c.roleDeficit .WORKER > acc0.1 then (c.roleDeficit .WORKER, Role.WORKER) else acc0
  let acc2 := if c.roleDeficit .SCOUT > acc1.1 then (c.roleDeficit .SCOUT, Role.SCOUT) else acc1
  let acc3 := if c.roleDeficit .SOLDIER > acc2.1 then (c.roleDeficit .SOLDIER, Role.SOLDIER) else acc2
  acc3.2

/-- `AntColony.spawnAnt` (part_003 lines 129-138). -/
def AntColony.spawnAnt (c : AntColony) : AntColony :=
  { c with ants := c.ants ++ [Ant.create c.nestId (c.determineAntRole)] }

/-- `AntColony.updateAntSpawning` (part_003 lines 114-124). -/
def AntColony.updateAntSpawning (c : AntColony) (deltaTime : ℚ) : AntColony :=
  if c.ants.length ≥ c.params.maxAnts then c
  else
    let t := c.spawnTimer + deltaTime
    if t ≥ 1 / c.params.antSpawnRate then { c with spawnTimer := 0 }.spawnAnt
    else { c with spawnTimer := t }

/-! ### Per-ant behavior (ant.js) -/

/-- `THREE.Vector3.lerpVectors`: componentwise linear interpolation. -/
def Pos.lerp (p1 p2 : Pos) (t : ℚ) : Pos :=
  ⟨p1.x + (p2.x - p1.x) * t, p1.y + (p2.y - p1.y) * t, p1.z + (p2.z - p1.z) * t⟩

/-- `Ant.updateFatigue` (ant.js lines 100-109): accrue fatigue (faster while
carrying) and force RESTING when the result exceeds 10. -/
def Ant.updateFatigue (a : Ant) (deltaTime : ℚ) : Ant :=
  let fatigueRate : ℚ := if a.carrying.isSome then 0.1 else 0.05
  let f := a.fatigue + fatigueRate * deltaTime
  { a with fatigue := f
           state := if f > 10 ∧ a.state ≠ .RESTING then .RESTING else a.state }

/-- `Ant.shouldDepositPheromone` (ant.js lines 137-149): always while
RETURNING, with probability 0.1 while EXPLORING (one random draw), only if
carrying while FOLLOWING. -/
def Ant.shouldDepositPheromone (a : Ant) (draws : List ℚ) : Bool × List ℚ :=
  match a.state with
  | .RETURNING => (true, draws)
  | .EXPLORING => (draws.headD 0 < 0.1, draws.tail)
  | .FOLLOWING => (a.carrying.isSome, draws)
  | .RESTING => (false, draws)

/-- `Ant.depositPheromone` (ant.js lines 154-171): FOOD at strength 0.5 while
carrying, else EXPLORATION at strength 0.1, deposited from the previous to
the current node. -/
def Ant.depositPheromone (a : Ant) (c : AntColony) : AntColony :=
  match a.previousNodeId with
  | none => c
  | some prev =>
      let pType := if a.carrying.isSome then "FOOD" else "EXPLORATION"
      let strength : ℚ := if a.carrying.isSome then 0.5 else 0.1
      c.depositPheromone prev a.currentNodeId pType strength

/-- `Ant.updateMovement` (ant.js lines 115-131): advance the interpolation
fraction (clamped at 1), reposition, then maybe deposit pheromone.  The
source interpolates from `getNodePosition(previousNodeId)`, which is `null`
for a freshly spawned ant and throws inside `lerpVectors`; that path is
`none`. -/
def Ant.updateMovement (a : Ant) (c : AntColony) (deltaTime : ℚ) (draws : List ℚ) :
    Option (Ant × AntColony × List ℚ) :=
  let p1 := a.movementProgress + a.movementSpeed * deltaTime
  let p := if p1 > 1 then 1 else p1
  match a.previousNodeId.bind c.graph.getNodePosition,
      c.graph.getNodePosition a.currentNodeId with
  | some fromPos, some toPos =>
      let a1 := { a with movementProgress := p, position := Pos.lerp fromPos toPos p }
      let dep := a1.shouldDepositPheromone draws
      if dep.1 then some (a1, a1.depositPheromone c, dep.2)
      else some (a1, c, dep.2)
  | _, _ => none

/-- `Ant.calculateMovementProbabilities` (ant.js lines 202-230): per-neighbor
selection weight from pheromones, short-term memory and node type.  Reading a
missing neighbor node would throw (`node.type`); that path is `none`. -/
def Ant.calculateMovementProbabilities (a : Ant) (c : AntColony) :
    List Nat → Option (List (Nat × ℚ))
  | [] => some []
  | nodeId :: ns =>
      match alookup c.graph.nodes nodeId with
      | none => none
      | some node =>
          let memoryFactor : ℚ := if nodeId ∈ a.memory then 0.1 else 1
          let foodPheromone := c.getPheromoneLevel a.currentNodeId nodeId "FOOD"
          let explorationPheromone := c.getPheromoneLevel a.currentNodeId nodeId "EXPLORATION"
          let probability : ℚ :=
            if a.state = .EXPLORING then (explorationPheromone * 0.5 + 0.5) * memoryFactor
            else if a.state = .FOLLOWING then
              (foodPheromone * 2 + explorationPheromone * 0.5) * memoryFactor
            else memoryFactor
          let probability := if node.type = "FOOD_SOURCE" then probability * 3 else probability
          let probability :=
            if node.type = "NEST" then
              probability * (if a.carrying.isSome then 3 else 0.5)
            else probability
          (Ant.calculateMovementProbabilities a c ns).map (fun rest => (nodeId, probability) :: rest)

/-- The cumulative-probability scan of `selectBasedOnProbability` (ant.js
lines 251-256): first item whose running total reaches the draw. -/
def selectPick (random : ℚ) : ℚ → List (Nat × ℚ) → Option Nat
  | _, [] => none
  | cum, (nodeId, p) :: rest =>
      let cum1 := cum + p
      if random ≤ cum1 then some nodeId else selectPick random cum1 rest

/-- `Ant.selectBasedOnProbability` (ant.js lines 237-260): normalize, draw
once, pick by cumulative distribution; first candidate if the total weight is
0 (no draw consumed), last candidate as the rounding fallback. -/
def Ant.selectBasedOnProbability (probabilities : List (Nat × ℚ)) (draws : List ℚ) :
    Option Nat × List ℚ :=
  let sum := probabilities.foldl (fun acc item => acc + item.2) 0
  if sum = 0 then ((probabilities.head?).map Prod.fst, draws)
  else
    let normalized := probabilities.map (fun item => (item.1, item.2 / sum))
    let random := draws.headD 0
    match selectPick random 0 normalized with
    | some n => (some n, draws.tail)
    | none => ((normalized.getLast?).map Prod.fst, draws.tail)

/-- `Ant.moveToNode` (ant.js lines 266-282): shift current to previous, push
onto path and bounded memory, reset the interpolation fraction. -/
def Ant.moveToNode (a : Ant) (c : AntColony) (nodeId : Nat) : Ant :=
  let mem1 := a.memory ++ [nodeId]
  { a with previousNodeId := some a.currentNodeId
           currentNodeId := nodeId
           path := a.path ++ [nodeId]
           memory := if mem1.length > a.memorySize then mem1.tail else mem1
           movementProgress := 0
           targetPosition := c.graph.getNodePosition nodeId }

/-- `Ant.checkForResources` (ant.js lines 287-308): pick up one unit at a
stocked FOOD_SOURCE when empty-handed (and switch to RETURNING), then deposit
at a NEST when carrying (and switch to FOLLOWING). -/
def Ant.checkForResources (a : Ant) (c : AntColony) : Option (Ant × AntColony) :=
  match alookup c.graph.nodes a.currentNodeId with
  | none => none
  | some node =>
      let picked :=
        if node.type = "FOOD_SOURCE" ∧ node.resources > 0 ∧ a.carrying.isNone then
          ({ a with carrying := some "FOOD", state := .RETURNING },
            { c with graph := { c.graph with
              nodes := aset c.graph.nodes a.currentNodeId
                { node with resources := node.resources - 1 } } })
        else (a, c)
      let a1 := picked.1
      let c1 := picked.2
      if node.type = "NEST" ∧ a1.carrying.isSome then
        some ({ a1 with carrying := none, path := [a1.currentNodeId], state := .FOLLOWING },
          c1.addResource ((a1.carrying).getD "FOOD") 1)
      else some (a1, c1)

/-- `Ant.explore` (ant.js lines 176-195): weight the neighbors, sample one,
move there and check for resources; with no neighbors switch to RETURNING. -/
def Ant.explore (a : Ant) (c : AntColony) (draws : List ℚ) :
    Option (Ant × AntColony × List ℚ) :=
  let neighbors := c.graph.getNeighbors a.currentNodeId
  if neighbors = [] then some ({ a with state := .RETURNING }, c, draws)
  else
    match a.calculateMovementProbabilities c neighbors with
    | none => none
    | some probabilities =>
        let sel := Ant.selectBasedOnProbability probabilities draws
        match sel.1 with
        | none => some (a, c, sel.2)
        | some nodeId =>
            let a1 := a.moveToNode c nodeId
            (a1.checkForResources c).map (fun pr => (pr.1, pr.2, sel.2))

/-- `node.distanceToNest < shortestDistance` with `Infinity` (`none`) on
either side. -/
def optDistLt : Option Nat → Option Nat → Bool
  | none, _ => false
  | some _, none => true
  | some d, some e => d < e

/-- The best-neighbor scan of `returnToNest` (ant.js lines 317-326). -/
def Ant.bestNestNeighbor (c : AntColony) :
    List Nat → Option Nat → Option Nat → Option (Option Nat)
  | [], best, _ => some best
  | nodeId :: ns, best, shortest =>
      match alookup c.graph.nodes nodeId with
      | none => none
      | some node =>
          if optDistLt node.distanceToNest shortest then
            Ant.bestNestNeighbor c ns (some nodeId) node.distanceToNest
          else Ant.bestNestNeighbor c ns best shortest

/-- `Ant.returnToNest` (ant.js lines 313-334): step to the neighbor with the
smallest `distanceToNest`; with no finite candidate, step to a uniformly
random neighbor (`Math.floor(random * length)`). -/
def Ant.returnToNest (a : Ant) (c : AntColony) (draws : List ℚ) :
    Option (Ant × AntColony × List ℚ) :=
  let neighbors := c.graph.getNeighbors a.currentNodeId
  match Ant.bestNestNeighbor c neighbors none none with
  | none => none
  | some best =>
      match best with
      | some bestNode => some (a.moveToNode c bestNode, c, draws)
      | none =>
          if neighbors.length > 0 then
            let idx := (⌊draws.headD 0 * (neighbors.length : ℚ)⌋).toNat
            match neighbors.get? idx with
            | some picked => some (a.moveToNode c picked, c, draws.tail)
            | none => some (a, c, draws.tail)
          else some (a, c, draws)

/-- `Ant.rest` (ant.js lines 340-347): recover 0.2 fatigue per second; at 0,
resume RETURNING if carrying else EXPLORING. -/
def Ant.rest (a : Ant) (deltaTime : ℚ) : Ant :=
  let f := a.fatigue - 0.2 * deltaTime
  if f ≤ 0 then
    { a with fatigue := 0, state := if a.carrying.isSome then .RETURNING else .EXPLORING }
  else { a with fatigue := f }

/-- `Ant.followTrail` (ant.js lines 352-375): weight neighbors by
`(foodPheromone + 0.1)³`, sample one and move (falling back to EXPLORING),
then check for resources. -/
def Ant.followTrail (a : Ant) (c : AntColony) (draws : List ℚ) :
    Option (Ant × AntColony × List ℚ) :=
  let neighbors := c.graph.getNeighbors a.currentNodeId
  let probabilities := neighbors.map (fun nodeId =>
    (nodeId, (c.getPheromoneLevel a.currentNodeId nodeId "FOOD" + 0.1) ^ 3))
  let sel := Ant.selectBasedOnProbability probabilities draws
  let a1 := match sel.1 with
    | some nodeId => a.moveToNode c nodeId
    | none => { a with state := .EXPLORING }
  (a1.checkForResources c).map (fun pr => (pr.1, pr.2, sel.2))

/-- `Ant.update` (ant.js lines 67-94): fatigue first, then either movement
advancement (while in transit) or the state machine. -/
def Ant.update (a : Ant) (c : AntColony) (deltaTime : ℚ) (draws : List ℚ) :
    Option (Ant × AntColony × List ℚ) :=
  let a0 := a.updateFatigue deltaTime
  if a0.movementProgress < 1 then a0.updateMovement c deltaTime draws
  else
    match a0.state with
    | .EXPLORING => a0.explore c draws
    | .RETURNING => a0.returnToNest c draws
    | .RESTING => some (a0.rest deltaTime, c, draws)
    | .FOLLOWING => a0.followTrail c draws

/-- The `for (const ant of this.ants)` loop of `AntColony.update` (part_003
lines 98-101): each ant is updated in order against the colony state left by
the ants before it. -/
def AntColony.updateAntsGo (deltaTime : ℚ) (processed : List Ant) (cur : AntColony)
    (ds : List ℚ) : List Ant → Option (AntColony × List ℚ)
  | [] => some ({ cur with ants := processed }, ds)
  | a :: rest =>
      match a.update cur deltaTime ds with
      | none => none
      | some (a1, c1, d1) => AntColony.updateAntsGo deltaTime (processed ++ [a1]) c1 d1 rest

/-- Entry point of the per-ant loop: fold over `c.ants` from the front. -/
def AntColony.updateAnts (c : AntColony) (deltaTime : ℚ) (draws : List ℚ) :
    Option (AntColony × List ℚ) :=
  AntColony.updateAntsGo deltaTime [] c draws c.ants

/-- `AntColony.update` (part_003 lines 97-108): ants first, then spawning,
then pheromone decay — in that source order. -/
def AntColony.update (c : AntColony) (deltaTime : ℚ) (draws : List ℚ) :
    Option (AntColony × List ℚ) :=
  match c.updateAnts deltaTime draws with
  | none => none
  | some (c1, d1) =>
      let c2 := c1.updateAntSpawning deltaTime
      some (c2.updatePheromones deltaTime, d1)

/-- Modelled from the spec: the claimed tick order of `Colony.tick` — decay
the pheromone field first, then update every agent, then spawn at most one
agent (spec §2 control flow and §5). -/
def AntColony.updateSpecOrder (c : AntColony) (deltaTime : ℚ) (draws : List ℚ) :
    Option (AntColony × List ℚ) :=
  let c0 := c.updatePheromones deltaTime
  match c0.updateAnts deltaTime draws with
  | none => none
  | some (c1, d1) => some (c1.updateAntSpawning deltaTime, d1)

/-! ## Server-side game manager (src/server/game.js) -/

/-- The per-node body of `GameManager.updateNodes` (game.js lines 279-310):
tick down the boost and disrupt timers, and regenerate one resource every 5
seconds at a FOOD_SOURCE below capacity, clamped by `Math.min` to capacity.
`node.resourceTimer` starts undefined in the source (`|| 0`); the field here
is created as 0, which agrees with every reachable value. -/
def GameManager.updateNode (node : Node) (deltaTime : ℚ) : Node :=
  let node :=
    if node.boosted then
      let t := node.boostTimer - deltaTime
      if t ≤ 0 then { node with boosted := false, boostTimer := 0 }
      else { node with boostTimer := t }
    else node
  let node :=
    if node.disrupted then
      let t := node.disruptTimer - deltaTime
      if t ≤ 0 then { node with disrupted := false, disruptTimer := 0 }
      else { node with disruptTimer := t }
    else node
  if node.type = "FOOD_SOURCE" ∧ node.resources < node.capacity then
    let rt := node.resourceTimer + deltaTime
    if rt ≥ 5 then
      { node with resourceTimer := 0, resources := min (node.resources + 1) node.capacity }
    else { node with resourceTimer := rt }
  else node

/-- `GameManager.updateNodes` (game.js lines 279-310): the loop over all
nodes. -/
def GameManager.updateNodes (nodes : List (Nat × Node)) (deltaTime : ℚ) :
    List (Nat × Node) :=
  nodes.map (fun kv => (kv.1, GameManager.updateNode kv.2 deltaTime))

/-- Grid coordinates `-gridSize .. gridSize` with `gridSize = 5`. -/
def gridCoords : List ℤ := (List.range 11).map (fun i => (i : ℤ) - 5)

/-- `const id = getNodeIdByPosition(...); if (id) { addEdge(a, id) }` — add
an edge to a found node, keep the graph when the position lookup failed. -/
def addEdgeIfFound (g : Graph) (a : Nat) : Option Nat → Graph
  | some b => (g.addEdge a b).2
  | none => g

/-- One iteration of the grid loop of `GameManager.createDefaultGraph`
(game.js lines 65-123), carrying the next fresh node id.  The corner test is
`Math.abs(x) >= gridSize-1 && Math.abs(z) >= gridSize-1`.  The height
`y = Math.sin(distance) * 2` is irrational and is modelled as 0: position
matching (`arePositionsEqual`) reads only x and z — as does the position
object the source passes to `getNodeIdByPosition`, which has no `y` at
all — and no claim below depends on y. -/
def GameManager.defaultCell (g : Graph) (fresh : Nat) (nestId : Nat) (x z : ℤ) :
    Graph × Nat :=
  if x = 0 ∧ z = 0 then (g, fresh)
  else
    let isFood := 4 ≤ |x| ∧ 4 ≤ |z|
    let nodeType := if isFood then "FOOD_SOURCE" else "NORMAL"
    let resources : ℚ := if isFood then 100 else 0
    let res := g.addNode fresh
      { type := some nodeType
        position := some ⟨(x : ℚ) * 10, 0, (z : ℚ) * 10⟩
        size := some 1
        capacity := some 10
        resources := some resources }
    let nodeId := res.1
    let g1 := res.2
    let g2 :=
      if x > -5 then
        addEdgeIfFound g1 nodeId
          (g1.getNodeIdByPosition ⟨((x - 1 : ℤ) : ℚ) * 10, 0, (z : ℚ) * 10⟩)
      else g1
    let g3 :=
      if z > -5 then
        addEdgeIfFound g2 nodeId
          (g2.getNodeIdByPosition ⟨(x : ℚ) * 10, 0, ((z - 1 : ℤ) : ℚ) * 10⟩)
      else g2
    let g4 := if |x| ≤ 1 ∧ |z| ≤ 1 then (g3.addEdge nodeId nestId).2 else g3
    (g4, fresh + 1)

/-- `GameManager.createDefaultGraph` (game.js lines 48-138): the nest at the
origin, the 11×11 grid around it, grid/nest edges, extra random connections
(the randomly chosen id pairs are supplied as `randPairs`, each added only
when the two ids differ, as in the source), then `calculateDistances(nest)`.
Returns the graph and the nest id. -/
def GameManager.createDefaultGraph (randPairs : List (Nat × Nat)) : Graph × Nat :=
  let resNest := Graph.empty.addNode 0
    { type := some "NEST"
      position := some ⟨0, 0, 0⟩
      size := some 2
      capacity := some 20
      resources := some 0 }
  let nestId := resNest.1
  let start : Graph × Nat := (resNest.2, 1)
  let built := gridCoords.foldl
    (fun acc x => gridCoords.foldl
      (fun acc2 z => GameManager.defaultCell acc2.1 acc2.2 nestId x z) acc) start
  let g := built.1
  let g2 := randPairs.foldl
    (fun gg pr => if pr.1 ≠ pr.2 then (gg.addEdge pr.1 pr.2).2 else gg) g
  (g2.calculateDistances nestId, nestId)

/-! ## Specification-level definitions

These are not translations of the source: they state graph-theoretic
properties (hop walks and shortest distances) against which the source
algorithms are judged. -/

/-- A walk of a given hop length from `a` to `b` along the adjacency
structure of `g` (each step moves to a listed neighbor). -/
inductive WalkLen (g : Graph) : Nat → Nat → Nat → Prop
  | refl (a : Nat) : WalkLen g a a 0
  | step {a b c L} (hab : b ∈ g.getNeighbors a) (htail : WalkLen g b c L) :
      WalkLen g a c (L + 1)

/-- `L` is the length of a shortest hop-path from `a` to `b` in `g`. -/
def ShortestPathLen (g : Graph) (a b : Nat) (L : Nat) : Prop :=
  WalkLen g a b L ∧ ∀ L2, WalkLen g a b L2 → L ≤ L2

/-- `b` is unreachable from `a` (no walk of any length). -/
def Unreachable (g : Graph) (a b : Nat) : Prop :=
  ¬ ∃ L, WalkLen g a b L

/-- `x` is admissible in a path search started at `startNodeId`: it is the
start node itself, or a present, non-disrupted node.  (`findPath` puts the
start into the open set without any disruption check, but expands only
non-disrupted neighbors.) -/
def OkNode (g : Graph) (startNodeId x : Nat) : Prop :=
  x = startNodeId ∨ ∃ nd, alookup g.nodes x = some nd ∧ nd.disrupted = false

/-- A node with its `distanceToNest` forgotten (used to state that an
operation changes nothing but distances). -/
def stripDist (nd : Node) : Node := { nd with distanceToNest := none }

/-- `nodes'` agrees with `nodes` everywhere except possibly on
`distanceToNest` fields. -/
def DistOnly (nodes nodes' : List (Nat × Node)) : Prop :=
  ∀ n, (alookup nodes' n).map stripDist = (alookup nodes n).map stripDist

/-- The (resources, capacity, type) view of a node of a graph. -/
def nodeRCT (g : Graph) (n : Nat) : Option (ℚ × ℚ × String) :=
  (alookup g.nodes n).map (fun nd => (nd.resources, nd.capacity, nd.type))

/-- Well-formedness: every listed neighbor is a node of the graph (graphs
built through `addNode`/`addEdge` satisfy this). -/
def Graph.WFEdges (g : Graph) : Prop :=
  ∀ kv ∈ g.edges, ∀ b ∈ kv.2, b ∈ akeys g.nodes

/-- Symmetry: adjacency lists of an undirected graph mention each other both
ways (graphs built through `addEdge` satisfy this). -/
def Graph.SymmEdges (g : Graph) : Prop :=
  ∀ kv ∈ g.edges, ∀ b ∈ kv.2, kv.1 ∈ g.getNeighbors b

instance (g : Graph) : Decidable g.WFEdges := by
  unfold Graph.WFEdges; infer_instance

instance (g : Graph) : Decidable g.SymmEdges := by
  unfold Graph.SymmEdges; infer_instance

/-- The stored `distanceToNest` of node `n` in a node table (`none` both for
`Infinity` and for a missing node). -/
def distOf (nodes : List (Nat × Node)) (n : Nat) : Option Nat :=
  match alookup nodes n with
  | some nd => nd.distanceToNest
  | none => none

/-- Number of distinct node keys whose stored distance is `Infinity`; the
termination measure of the BFS queue loop is `queue.length + countNone`. -/
def countNone (nodes : List (Nat × Node)) : Nat :=
  ((akeys nodes).dedup.filter (fun n => distOf nodes n = none)).length

/-- The loop invariant of `calculateDistances`: soundness of every assigned
distance, the visited set fully relaxed, every assigned node in the frontier,
and the queue carrying sorted distance values that span at most one unit
below every assigned value. -/
structure BfsInv (g : Graph) (T : Nat) (nodes : List (Nat × Node))
    (queue visited : List Nat) : Prop where
  edgesWF : ∀ kv ∈ g.edges, ∀ m ∈ kv.2, ∃ nd, alookup nodes m = some nd
  sound : ∀ n v, distOf nodes n = some v → WalkLen g n T v
  visitedAssigned : ∀ n ∈ visited, ∃ v, distOf nodes n = some v
  visitedRelaxed : ∀ u ∈ visited, ∀ du, distOf nodes u = some du →
    ∀ m ∈ g.getNeighbors u, ∃ vm, distOf nodes m = some vm ∧ vm ≤ du + 1
  assignedInFrontier : ∀ n v, distOf nodes n = some v → n ∈ visited ∨ n ∈ queue
  queueSorted : ∃ vs, List.Forall₂ (fun n v => distOf nodes n = some v) queue vs ∧
    vs.Pairwise (· ≤ ·) ∧
    (∀ n v, distOf nodes n = some v → ∀ h0, vs.head? = some h0 → v ≤ h0 + 1)

/-- An externally applied pheromone-field operation: a deposit or a decay
step (the decay rate is the colony parameter in force for that step). -/
inductive PherOp where
  | deposit (fromId toId : Nat) (type : String) (amount : ℚ)
  | decay (decayRate deltaTime : ℚ)
deriving DecidableEq, Repr

/-- Apply one pheromone-field operation to a colony. -/
def applyPherOp (c : AntColony) : PherOp → AntColony
  | .deposit f t ty a => c.depositPheromone f t ty a
  | .decay r dt =>
      ({ c with params := { c.params with pheromoneDecayRate := r } }).updatePheromones dt

/-- The side conditions of claim C4: non-negative deposit amounts and decay
factors `decayRate*dt` within `[0, 1]`. -/
def PherOp.Valid : PherOp → Prop
  | .deposit _ _ _ a => 0 ≤ a
  | .decay r dt => 0 ≤ r * dt ∧ r * dt ≤ 1

instance (op : PherOp) : Decidable op.Valid := by
  cases op <;> unfold PherOp.Valid <;> infer_instance

/-- Every stored pheromone level of the colony lies in `[0, 5]`. -/
def pherLevelsIn (c : AntColony) : Prop :=
  ∀ kv ∈ c.pheromones, 0 ≤ kv.2.level ∧ kv.2.level ≤ 5

instance (c : AntColony) : Decidable (pherLevelsIn c) := by
  unfold pherLevelsIn; infer_instance

/-! ## Concrete instances used by counterexamples and witnesses -/

/-- The zero heuristic: the exact value of the source's Euclidean heuristic
on any graph whose nodes all occupy a single position. -/
def hZero : Nat → Nat → ℚ := fun _ _ => 0

/-- A plain node, exactly as `addNode` creates one with all defaults. -/
def plainNode : Node :=
  { type := "NORMAL"
    position := ⟨0, 0, 0⟩
    size := 1
    capacity := 10
    resources := 0
    distanceToNest := none
    boosted := false
    disrupted := false
    boostTimer := 0
    disruptTimer := 0
    resourceTimer := 0 }

/-- A one-node graph (fresh id 0). -/
def oneNodeGraph : Graph := (Graph.empty.addNode 0 {}).2

/-- The 3-node path graph 0 – 1 – 2 with every node at the origin, built
through the graph API. -/
def lineGraph : Graph :=
  let g0 := (Graph.empty.addNode 0 {}).2
  let g1 := (g0.addNode 1 {}).2
  let g2 := (g1.addNode 2 {}).2
  let g3 := (g2.addEdge 0 1).2
  (g3.addEdge 1 2).2

/-- Two adjacent nodes 0 – 1 where node 0 is disrupted. -/
def disruptedStartGraph : Graph :=
  { nodes := [(0, { plainNode with disrupted := true }), (1, plainNode)]
    edges := [(0, [1]), (1, [0])] }

/-- A colony over the empty graph with no ants and default parameters. -/
def emptyColony : AntColony :=
  { graph := Graph.empty
    ants := []
    nestId := 0
    pheromones := []
    resources := [("FOOD", 0)]
    params := ColonyParams.default
    spawnTimer := 0 }

/-- Two plain nodes 0 and 1 joined by an edge. -/
def twoNodeGraph : Graph :=
  { nodes := [(0, plainNode), (1, plainNode)]
    edges := [(0, [1]), (1, [0])] }

/-- A carrying RETURNING ant in transit from node 0 to node 1. -/
def transitAnt : Ant :=
  { Ant.create 1 .WORKER with
      previousNodeId := some 0
      state := .RETURNING
      carrying := some "FOOD" }

/-- A colony whose single ant is `transitAnt` and whose field holds one FOOD
entry of level 1 on the edge being travelled. -/
def transitColony : AntColony :=
  { emptyColony with
      graph := twoNodeGraph
      ants := [transitAnt]
      pheromones := [((0, 1, "FOOD"), ⟨1⟩)] }

/-- A RESTING ant at a node (interpolation finished) with fatigue 1. -/
def restingAnt : Ant :=
  { Ant.create 0 .WORKER with state := .RESTING, fatigue := 1, movementProgress := 1 }

/-- A colony of five WORKER ants (the population of the claim C8 example). -/
def fiveWorkerColony : AntColony :=
  { emptyColony with ants := List.replicate 5 (Ant.create 0 .WORKER) }

/-- A colony of eight WORKERs and two SCOUTs (SOLDIER deficit 1 is then the
unique positive deficit). -/
def eightTwoColony : AntColony :=
  { emptyColony with
      ants := List.replicate 8 (Ant.create 0 .WORKER) ++
        List.replicate 2 (Ant.create 0 .SCOUT) }

/-- A small valid operation sequence on the pheromone field: one deposit and
one decay step. -/
def samplePherOps : List PherOp := [.deposit 0 1 "FOOD" 2, .decay 0.05 1]

/-! ## Basic lemmas about the association-list helpers -/

@[simp] theorem akeys_nil : akeys ([] : List (α × β)) = [] := rfl

@[simp] theorem akeys_cons (k0 : α) (v0 : β) (rest : List (α × β)) :
    akeys ((k0, v0) :: rest) = k0 :: akeys rest := rfl

@[simp] theorem alookup_nil (k : α) : alookup ([] : List (α × β)) k = none := rfl

@[simp] theorem alookup_cons (k0 : α) (v0 : β) (rest : List (α × β)) (k : α) :
    alookup ((k0, v0) :: rest) k = if k0 = k then some v0 else alookup rest k := rfl

theorem alookup_aset_self (l : List (α × β)) (k : α) (v : β) :
    alookup (aset l k v) k = some v := by
  induction l with
  | nil => simp [aset, alookup]
  | cons hd tl ih =>
      obtain ⟨k0, v0⟩ := hd
      by_cases h : k0 = k <;> simp [aset, alookup, h, ih]

theorem alookup_aset_ne (l : List (α × β)) (k k' : α) (v : β) (hne : k ≠ k') :
    alookup (aset l k v) k' = alookup l k' := by
  induction l with
  | nil => simp [aset, alookup, hne]
  | cons hd tl ih =>
      obtain ⟨k0, v0⟩ := hd
      by_cases h : k0 = k
      · subst h
        simp [aset, alookup, hne]
      · simp [aset, alookup, h, ih]

theorem akeys_aset_of_mem (l : List (α × β)) (k : α) (v : β)
    (h : k ∈ akeys l) : akeys (aset l k v) = akeys l := by
  induction l with
  | nil => simp at h
  | cons hd tl ih =>
      obtain ⟨k0, v0⟩ := hd
      by_cases hk : k0 = k
      · simp [aset, hk]
      · rw [akeys_cons, List.mem_cons] at h
        rcases h with h | h
        · exact absurd h.symm hk
        · simp only [aset, if_neg hk, akeys_cons, ih h]

theorem akeys_aset (l : List (α × β)) (k : α) (v : β) :
    akeys (aset l k v) = akeys l ∨ akeys (aset l k v) = akeys l ++ [k] := by
  induction l with
  | nil => right; simp [aset, akeys]
  | cons hd tl ih =>
      obtain ⟨k0, v0⟩ := hd
      by_cases hk : k0 = k
      · left; simp [aset, akeys, hk]
      · rcases ih with ih | ih
        · left; simp [aset, akeys, hk, ih] at ih ⊢; exact ih
        · right; simp [aset, akeys, hk] at ih ⊢; exact ih

theorem mem_akeys_of_alookup {l : List (α × β)} {k : α} {v : β}
    (h : alookup l k = some v) : k ∈ akeys l := by
  induction l with
  | nil => simp [alookup] at h
  | cons hd tl ih =>
      obtain ⟨k0, v0⟩ := hd
      by_cases hk : k0 = k
      · rw [akeys_cons, List.mem_cons]; exact Or.inl hk.symm
      · simp only [alookup_cons, if_neg hk] at h
        rw [akeys_cons, List.mem_cons]
        exact Or.inr (ih h)

theorem alookup_isSome_of_mem_akeys {l : List (α × β)} {k : α}
    (h : k ∈ akeys l) : ∃ v, alookup l k = some v := by
  induction l with
  | nil => simp at h
  | cons hd tl ih =>
      obtain ⟨k0, v0⟩ := hd
      by_cases hk : k0 = k
      · exact ⟨v0, by simp [alookup, hk]⟩
      · rw [akeys_cons, List.mem_cons] at h
        rcases h with h | h
        · exact absurd h.symm hk
        · rcases ih h with ⟨v, hv⟩
          exact ⟨v, by simp [alookup, hk, hv]⟩

theorem mem_of_alookup {l : List (α × β)} {k : α} {v : β}
    (h : alookup l k = some v) : (k, v) ∈ l := by
  induction l with
  | nil => simp [alookup] at h
  | cons hd tl ih =>
      obtain ⟨k0, v0⟩ := hd
      rw [alookup_cons] at h
      by_cases hk : k0 = k
      · rw [if_pos hk] at h
        injection h with hv
        subst hk
        subst hv
        exact List.mem_cons_self _ _
      · rw [if_neg hk] at h
        exact List.mem_cons_of_mem _ (ih h)

theorem mem_aset {l : List (α × β)} {k : α} {v : β} {kv : α × β}
    (h : kv ∈ aset l k v) : kv ∈ l ∨ kv = (k, v) := by
  induction l with
  | nil => simpa [aset] using h
  | cons hd tl ih =>
      obtain ⟨k0, v0⟩ := hd
      by_cases hk : k0 = k
      · simp only [aset, if_pos hk, List.mem_cons] at h
        rcases h with h | h
        · exact Or.inr h
        · exact Or.inl (List.mem_cons_of_mem _ h)
      · simp only [aset, if_neg hk, List.mem_cons] at h
        rcases h with h | h
        · exact Or.inl (h ▸ List.mem_cons_self _ _)
        · rcases ih h with h2 | h2
          · exact Or.inl (List.mem_cons_of_mem _ h2)
          · exact Or.inr h2

/-! ## Claim C10 — self-edges

The claim: `addEdge(a, a)` is defensively ignored, the adjacency lists are
unchanged, `hasEdge(a, a)` stays false and `a` never appears in
`getNeighbors(a)`.  In the source nothing guards against `node1Id ===
node2Id`: both `push` calls execute against the same adjacency list, so the
list gains `a` twice and `hasEdge(a, a)` becomes true. -/

/-- C10, counterexample: on a one-node graph, `addEdge 0 0` succeeds, makes
`hasEdge 0 0` true, puts 0 into `getNeighbors 0` and changes the adjacency
lists — the opposite of every part of the claim. -/
theorem c10_counterexample :
    (oneNodeGraph.addEdge 0 0).2.hasEdge 0 0 = true ∧
    0 ∈ (oneNodeGraph.addEdge 0 0).2.getNeighbors 0 ∧
    (oneNodeGraph.addEdge 0 0).2.edges ≠ oneNodeGraph.edges := by
  decide

/-- C10 (amended): a self-edge call `addEdge(a, a)` on an existing node `a`
with no prior self-edge is *not* ignored: it returns true, appends `a` twice
to `a`'s adjacency list, and afterwards `hasEdge(a, a)` is true (so `a` does
appear in `getNeighbors(a)`). -/
theorem c10_selfEdge_amended (g : Graph) (a : Nat)
    (hmem : (alookup g.nodes a).isSome = true) (hno : g.hasEdge a a = false) :
    (g.addEdge a a).1 = true ∧
    (g.addEdge a a).2.getNeighbors a = g.getNeighbors a ++ [a, a] ∧
    (g.addEdge a a).2.hasEdge a a = true := by
  have hnotNone : (alookup g.nodes a).isNone = false := by
    cases h : alookup g.nodes a with
    | none => rw [h] at hmem; simp at hmem
    | some v => simp
  have hlk : alookup (aset g.edges a (g.getNeighbors a ++ [a])) a
      = some (g.getNeighbors a ++ [a]) := alookup_aset_self _ _ _
  have hedge : Graph.addEdge g a a = (true, { g with edges := aset (aset g.edges a (g.getNeighbors a ++ [a])) a ((g.getNeighbors a ++ [a]) ++ [a]) }) := by
    rw [Graph.addEdge]
    simp [hnotNone, hno, hlk]
  refine ⟨by rw [hedge], ?_, ?_⟩
  · rw [hedge]
    simp only [Graph.getNeighbors]
    rw [alookup_aset_self]
    simp
  · rw [hedge]
    simp only [Graph.hasEdge, Graph.getNeighbors]
    rw [alookup_aset_self]
    simp

/-- Witness for C10 (amended) at the one-node graph. -/
theorem c10_selfEdge_amended_witness :
    (oneNodeGraph.addEdge 0 0).1 = true ∧
    (oneNodeGraph.addEdge 0 0).2.getNeighbors 0 = oneNodeGraph.getNeighbors 0 ++ [0, 0] ∧
    (oneNodeGraph.addEdge 0 0).2.hasEdge 0 0 = true :=
  c10_selfEdge_amended oneNodeGraph 0 (by decide) (by decide)

/-! ## Claim C7 — deposit semantics

The claim holds verbatim for `fromId ≠ toId`.  For `fromId = toId` the
forward and reverse keys coincide: the reverse update reads the entry the
forward update just wrote, so the single entry ends at
`min(min(old+amount,5) + amount*0.5, 5)`, not at `min(old+amount,5)`. -/

/-- C7, counterexample: a self-pair deposit of amount 1 on an empty field
leaves the (0,0,FOOD) entry at 1.5, not at `min(old + 1, 5) = 1` as the
claim requires of the (from,to) entry. -/
theorem c7_counterexample :
    (emptyColony.depositPheromone 0 0 "FOOD" 1).getPheromoneLevel 0 0 "FOOD" = 3/2 ∧
    (emptyColony.depositPheromone 0 0 "FOOD" 1).getPheromoneLevel 0 0 "FOOD" ≠
      min (emptyColony.getPheromoneLevel 0 0 "FOOD" + 1) 5 := by
  constructor <;>
    norm_num [AntColony.depositPheromone, AntColony.getPheromoneLevel, emptyColony,
      aset, alookup, min_def]

/-- C7 (amended): for `fromId ≠ toId`, `depositPheromone` sets the forward
entry to `min(old + amount, 5)`, the reverse entry to
`min(oldReverse + amount*0.5, 5)`, changes no other pheromone entry, and
leaves the graph and the ants untouched. -/
theorem c7_deposit_amended (c : AntColony) (fromId toId : Nat) (type : String)
    (amount : ℚ) (hne : fromId ≠ toId) :
    alookup (c.depositPheromone fromId toId type amount).pheromones (fromId, toId, type) =
      some ⟨min (((alookup c.pheromones (fromId, toId, type)).getD ⟨0⟩).level + amount) 5⟩ ∧
    alookup (c.depositPheromone fromId toId type amount).pheromones (toId, fromId, type) =
      some ⟨min (((alookup c.pheromones (toId, fromId, type)).getD ⟨0⟩).level + amount * 0.5) 5⟩ ∧
    (∀ k : PherKey, k ≠ (fromId, toId, type) → k ≠ (toId, fromId, type) →
      alookup (c.depositPheromone fromId toId type amount).pheromones k =
        alookup c.pheromones k) ∧
    (c.depositPheromone fromId toId type amount).graph = c.graph ∧
    (c.depositPheromone fromId toId type amount).ants = c.ants := by
  have hkey : ((fromId, toId, type) : PherKey) ≠ (toId, fromId, type) := by
    intro h
    exact hne (congrArg Prod.fst h)
  refine ⟨?_, ?_, ?_, rfl, rfl⟩
  · show alookup (aset (aset c.pheromones _ _) _ _) _ = _
    rw [alookup_aset_ne _ _ _ _ (Ne.symm hkey), alookup_aset_self]
  · show alookup (aset (aset c.pheromones _ _) _ _) _ = _
    rw [alookup_aset_self, alookup_aset_ne _ _ _ _ hkey]
  · intro k hk1 hk2
    show alookup (aset (aset c.pheromones _ _) _ _) k = _
    rw [alookup_aset_ne _ _ _ _ (Ne.symm hk2), alookup_aset_ne _ _ _ _ (Ne.symm hk1)]

/-- Witness for C7 (amended) at a deposit of amount 1 on (0,1,FOOD) over the
empty field. -/
theorem c7_deposit_amended_witness :
    alookup (emptyColony.depositPheromone 0 1 "FOOD" 1).pheromones (0, 1, "FOOD") =
      some ⟨min (((alookup emptyColony.pheromones (0, 1, "FOOD")).getD ⟨0⟩).level + 1) 5⟩ ∧
    alookup (emptyColony.depositPheromone 0 1 "FOOD" 1).pheromones (1, 0, "FOOD") =
      some ⟨min (((alookup emptyColony.pheromones (1, 0, "FOOD")).getD ⟨0⟩).level + 1 * 0.5) 5⟩ ∧
    (∀ k : PherKey, k ≠ (0, 1, "FOOD") → k ≠ (1, 0, "FOOD") →
      alookup (emptyColony.depositPheromone 0 1 "FOOD" 1).pheromones k =
        alookup emptyColony.pheromones k) ∧
    (emptyColony.depositPheromone 0 1 "FOOD" 1).graph = emptyColony.graph ∧
    (emptyColony.depositPheromone 0 1 "FOOD" 1).ants = emptyColony.ants :=
  c7_deposit_amended emptyColony 0 1 "FOOD" 1 (by decide)

/-! ## Claim C4 — pheromone levels stay within [0, 5] -/

theorem pherLevelsIn_deposit {c : AntColony} (fromId toId : Nat) (type : String)
    {amount : ℚ} (ha : 0 ≤ amount) (h : pherLevelsIn c) :
    pherLevelsIn (c.depositPheromone fromId toId type amount) := by
  have level_bounds : ∀ (ph : List (PherKey × PheromoneData)),
      (∀ kv ∈ ph, 0 ≤ kv.2.level ∧ kv.2.level ≤ 5) →
      ∀ k : PherKey, 0 ≤ ((alookup ph k).getD ⟨0⟩).level ∧
        ((alookup ph k).getD ⟨0⟩).level ≤ 5 := by
    intro ph hph k
    cases hl : alookup ph k with
    | none => simp
    | some v =>
        have := hph _ (mem_of_alookup hl)
        simpa [hl] using this
  have step : ∀ (ph : List (PherKey × PheromoneData)) (k : PherKey) (amt : ℚ),
      0 ≤ amt → (∀ kv ∈ ph, 0 ≤ kv.2.level ∧ kv.2.level ≤ 5) →
      ∀ kv ∈ aset ph k ⟨min (((alookup ph k).getD ⟨0⟩).level + amt) 5⟩,
        0 ≤ kv.2.level ∧ kv.2.level ≤ 5 := by
    intro ph k amt hamt hph kv hkv
    rcases mem_aset hkv with hin | heq
    · exact hph _ hin
    · subst heq
      have hold := level_bounds ph hph k
      constructor
      · exact le_min (add_nonneg hold.1 hamt) (by norm_num)
      · exact min_le_right _ _
  intro kv hkv
  exact step _ _ (amount * 0.5) (by positivity) (step _ _ amount ha h) kv hkv

theorem pherLevelsIn_decay {c : AntColony} (dt : ℚ)
    (h0 : 0 ≤ c.params.pheromoneDecayRate * dt)
    (h1 : c.params.pheromoneDecayRate * dt ≤ 1)
    (h : pherLevelsIn c) : pherLevelsIn (c.updatePheromones dt) := by
  intro kv hkv
  simp only [AntColony.updatePheromones, List.mem_filterMap] at hkv
  obtain ⟨kv0, hkv0, heq⟩ := hkv
  by_cases hlt : kv0.2.level * (1 - c.params.pheromoneDecayRate * dt) < 0.01
  · simp [hlt] at heq
  · rw [if_neg hlt] at heq
    injection heq with heq2
    subst heq2
    obtain ⟨hb0, hb5⟩ := h kv0 hkv0
    have hfac0 : (0 : ℚ) ≤ 1 - c.params.pheromoneDecayRate * dt := by linarith
    have hfac1 : 1 - c.params.pheromoneDecayRate * dt ≤ 1 := by linarith
    constructor
    · exact mul_nonneg hb0 hfac0
    · calc kv0.2.level * (1 - c.params.pheromoneDecayRate * dt)
          ≤ kv0.2.level * 1 := mul_le_mul_of_nonneg_left hfac1 hb0
        _ = kv0.2.level := mul_one _
        _ ≤ 5 := hb5

/-- C4: starting from any colony whose stored levels lie in [0, 5] (in
particular the initial empty field), any sequence of deposits with
non-negative amounts and decay steps with `0 ≤ decayRate*dt ≤ 1` keeps every
stored pheromone level within [0, 5]. -/
theorem c4_pheromone_level_bounds (c0 : AntColony) (ops : List PherOp)
    (h0 : pherLevelsIn c0) (hops : ∀ op ∈ ops, op.Valid) :
    pherLevelsIn (ops.foldl applyPherOp c0) := by
  induction ops generalizing c0 with
  | nil => simpa using h0
  | cons op rest ih =>
      have hop := hops op (List.mem_cons_self _ _)
      have hrest : ∀ op2 ∈ rest, op2.Valid := fun op2 h2 =>
        hops op2 (List.mem_cons_of_mem _ h2)
      have hstep : pherLevelsIn (applyPherOp c0 op) := by
        cases op with
        | deposit f t ty a => exact pherLevelsIn_deposit f t ty hop h0
        | decay r dt =>
            exact pherLevelsIn_decay dt hop.1 hop.2 h0
      simpa using ih (applyPherOp c0 op) hstep hrest

/-- Witness for C4 at the empty field and a deposit-then-decay sequence. -/
theorem c4_pheromone_level_bounds_witness :
    pherLevelsIn emptyColony ∧ (∀ op ∈ samplePherOps, op.Valid) ∧
    pherLevelsIn (samplePherOps.foldl applyPherOp emptyColony) := by
  have h0 : pherLevelsIn emptyColony := by intro kv hkv; simp [emptyColony] at hkv
  have hops : ∀ op ∈ samplePherOps, op.Valid := by
    intro op hop
    simp only [samplePherOps, List.mem_cons, List.mem_singleton] at hop
    rcases hop with h | h | h
    · subst h; show (0:ℚ) ≤ 2; norm_num
    · subst h; constructor <;> norm_num
    · simp at h
  exact ⟨h0, hops, c4_pheromone_level_bounds emptyColony samplePherOps h0 hops⟩

/-! ## Claim C8 — spawn-role selection -/

/-- C8: `determineAntRole` picks the role with the strictly largest positive
deficit; on ties the earliest role in the order WORKER, SCOUT, SOLDIER wins
(the loop comparison is strict `>`), and with no positive deficit the default
WORKER is returned.  In particular a colony of five WORKERs (counts
{WORKER:5, SCOUT:0, SOLDIER:0} under the default ratios 0.7/0.2/0.1) spawns
a SCOUT next. -/
theorem c8_role_selection (c : AntColony) :
    ((c.roleDeficit .WORKER ≤ 0 ∧ c.roleDeficit .SCOUT ≤ 0 ∧
        c.roleDeficit .SOLDIER ≤ 0) → c.determineAntRole = .WORKER) ∧
    ((0 < c.roleDeficit .WORKER ∧ c.roleDeficit .SCOUT ≤ c.roleDeficit .WORKER ∧
        c.roleDeficit .SOLDIER ≤ c.roleDeficit .WORKER) → c.determineAntRole = .WORKER) ∧
    ((0 < c.roleDeficit .SCOUT ∧ c.roleDeficit .WORKER < c.roleDeficit .SCOUT ∧
        c.roleDeficit .SOLDIER ≤ c.roleDeficit .SCOUT) → c.determineAntRole = .SCOUT) ∧
    ((0 < c.roleDeficit .SOLDIER ∧ c.roleDeficit .WORKER < c.roleDeficit .SOLDIER ∧
        c.roleDeficit .SCOUT < c.roleDeficit .SOLDIER) → c.determineAntRole = .SOLDIER) ∧
    fiveWorkerColony.determineAntRole = .SCOUT := by
  refine ⟨?_, ?_, ?_, ?_, ?_⟩
  case _ =>
    intro h
    simp only [AntColony.determineAntRole]
    split_ifs <;> first | rfl | omega
  case _ =>
    intro h
    simp only [AntColony.determineAntRole]
    split_ifs <;> first | rfl | omega
  case _ =>
    intro h
    simp only [AntColony.determineAntRole]
    split_ifs <;> first | rfl | omega
  case _ =>
    intro h
    simp only [AntColony.determineAntRole]
    split_ifs <;> first | rfl | omega
  case _ =>
    have hlen : fiveWorkerColony.ants.length = 5 := by
      simp [fiveWorkerColony, emptyColony]
    have hW : fiveWorkerColony.roleDeficit .WORKER = -2 := by
      have hc : fiveWorkerColony.roleCount .WORKER = 5 := by
        simp [AntColony.roleCount, fiveWorkerColony, emptyColony, Ant.create,
          List.replicate, List.filter]
      have hd : fiveWorkerColony.desiredCount .WORKER = 3 := by
        rw [AntColony.desiredCount, hlen]
        norm_num [ColonyParams.spawnRatio, fiveWorkerColony, emptyColony, ColonyParams.default]
      rw [AntColony.roleDeficit, hd, hc]; norm_num
    have hS : fiveWorkerColony.roleDeficit .SCOUT = 1 := by
      have hc : fiveWorkerColony.roleCount .SCOUT = 0 := by
        simp [AntColony.roleCount, fiveWorkerColony, emptyColony, Ant.create,
          List.replicate, List.filter]
      have hd : fiveWorkerColony.desiredCount .SCOUT = 1 := by
        rw [AntColony.desiredCount, hlen]
        norm_num [ColonyParams.spawnRatio, fiveWorkerColony, emptyColony, ColonyParams.default]
      rw [AntColony.roleDeficit, hd, hc]; norm_num
    have hSo : fiveWorkerColony.roleDeficit .SOLDIER = 0 := by
      have hc : fiveWorkerColony.roleCount .SOLDIER = 0 := by
        simp [AntColony.roleCount, fiveWorkerColony, emptyColony, Ant.create,
          List.replicate, List.filter]
      have hd : fiveWorkerColony.desiredCount .SOLDIER = 0 := by
        rw [AntColony.desiredCount, hlen]
        norm_num [ColonyParams.spawnRatio, fiveWorkerColony, emptyColony, ColonyParams.default]
      rw [AntColony.roleDeficit, hd, hc]; norm_num
    simp only [AntColony.determineAntRole, hW, hS, hSo]
    norm_num

/-- Witness for C8: a colony of eight WORKERs and two SCOUTs (total 10) has
deficits −1, 0, 1, so the unique positive deficit selects SOLDIER. -/
theorem c8_role_selection_witness : eightTwoColony.determineAntRole = .SOLDIER := by
  have hlen : eightTwoColony.ants.length = 10 := by
    simp [eightTwoColony, emptyColony]
  have hW : eightTwoColony.roleDeficit .WORKER = -1 := by
    have hc : eightTwoColony.roleCount .WORKER = 8 := by
      simp [AntColony.roleCount, eightTwoColony, emptyColony, Ant.create,
        List.replicate, List.filter]
    have hd : eightTwoColony.desiredCount .WORKER = 7 := by
      rw [AntColony.desiredCount, hlen]
      norm_num [ColonyParams.spawnRatio, eightTwoColony, emptyColony, ColonyParams.default]
    rw [AntColony.roleDeficit, hd, hc]; norm_num
  have hS : eightTwoColony.roleDeficit .SCOUT = 0 := by
    have hc : eightTwoColony.roleCount .SCOUT = 2 := by
      simp [AntColony.roleCount, eightTwoColony, emptyColony, Ant.create,
        List.replicate, List.filter]
    have hd : eightTwoColony.desiredCount .SCOUT = 2 := by
      rw [AntColony.desiredCount, hlen]
      norm_num [ColonyParams.spawnRatio, eightTwoColony, emptyColony, ColonyParams.default]
    rw [AntColony.roleDeficit, hd, hc]; norm_num
  have hSo : eightTwoColony.roleDeficit .SOLDIER = 1 := by
    have hc : eightTwoColony.roleCount .SOLDIER = 0 := by
      simp [AntColony.roleCount, eightTwoColony, emptyColony, Ant.create,
        List.replicate, List.filter]
    have hd : eightTwoColony.desiredCount .SOLDIER = 1 := by
      rw [AntColony.desiredCount, hlen]
      norm_num [ColonyParams.spawnRatio, eightTwoColony, emptyColony, ColonyParams.default]
    rw [AntColony.roleDeficit, hd, hc]; norm_num
  exact (c8_role_selection eightTwoColony).2.2.2.1 (by rw [hW, hS, hSo]; norm_num)

/-! ## Claim C9 — fatigue and the RESTING state

The claim is right that exceeding fatigue 10 forces RESTING from any state
and that at fatigue 0 the ant resumes RETURNING (carrying) or EXPLORING.
But `Ant.update` runs `updateFatigue` (which *adds* 0.05/s, or 0.1/s while
carrying) before `rest` subtracts 0.2/s, so the net recovery rate while
resting is 0.15/s (0.1/s while carrying), not 0.2/s. -/

/-- C9, counterexample: a non-carrying RESTING ant with fatigue 1 updated
for one second ends at fatigue 0.85, not at the claimed 1 − 0.2·1 = 0.8. -/
theorem c9_counterexample :
    (restingAnt.update emptyColony 1 []).map (fun r => r.1.fatigue) = some (17/20) ∧
    ¬ ((17 : ℚ)/20 = restingAnt.fatigue - 0.2 * 1) := by
  constructor
  · norm_num [Ant.update, Ant.updateFatigue, Ant.rest, restingAnt, Ant.create, emptyColony]
  · norm_num [restingAnt, Ant.create]

/-- C9 (amended): exceeding fatigue 10 after accrual forces RESTING from any
prior state; an update of a RESTING ant at a node first accrues fatigue at
0.05/s (0.1/s while carrying) and then subtracts 0.2/s — a net decrease of
0.15/s (0.1/s while carrying) — and once the decremented fatigue reaches ≤ 0
it is clamped to 0 and the ant transitions to RETURNING if carrying, else to
EXPLORING. -/
theorem c9_resting_amended (a : Ant) (c : AntColony) (dt : ℚ) (draws : List ℚ) :
    ((a.updateFatigue dt).fatigue =
      a.fatigue + (if a.carrying.isSome then (0.1:ℚ) else 0.05) * dt) ∧
    ((a.updateFatigue dt).fatigue > 10 → (a.updateFatigue dt).state = .RESTING) ∧
    (a.state = .RESTING → ¬ a.movementProgress < 1 →
      0 < a.fatigue + (if a.carrying.isSome then (0.1:ℚ) else 0.05) * dt - 0.2 * dt →
      a.update c dt draws = some ({ a with fatigue := a.fatigue + (if a.carrying.isSome then (0.1:ℚ) else 0.05) * dt - 0.2 * dt }, c, draws)) ∧
    (a.fatigue - 0.2 * dt ≤ 0 →
      (a.rest dt).fatigue = 0 ∧
      (a.rest dt).state = (if a.carrying.isSome then AntState.RETURNING else AntState.EXPLORING)) := by
  refine ⟨by simp [Ant.updateFatigue], ?_, ?_, ?_⟩
  · intro hf
    by_cases hs : a.state = .RESTING
    · simp only [Ant.updateFatigue] at hf ⊢
      simp only [hs]
      split_ifs <;> rfl
    · simp only [Ant.updateFatigue] at hf ⊢
      rw [if_pos ⟨hf, hs⟩]
  · intro hs hprog hpos
    obtain ⟨cur, prev, role, st, car, mem, ms, fat, pth, pos, tgt, mp, msp, sc, ch⟩ := a
    dsimp only at hs hprog hpos ⊢
    subst hs
    simp only [Ant.update, Ant.updateFatigue]
    dsimp only
    rw [if_neg hprog]
    simp only [ite_self]
    simp only [Ant.rest]
    dsimp only
    rw [if_neg (not_le.mpr hpos)]
  · intro hle
    simp only [Ant.rest]
    rw [if_pos hle]
    exact ⟨rfl, rfl⟩

/-- Witness for C9 (amended), applying the amended theorem to `restingAnt`
over one second. -/
theorem c9_resting_amended_witness :
    restingAnt.update emptyColony 1 [] = some ({ restingAnt with fatigue := restingAnt.fatigue + (if restingAnt.carrying.isSome then (0.1:ℚ) else 0.05) * 1 - 0.2 * 1 }, emptyColony, []) :=
  (c9_resting_amended restingAnt emptyColony 1 []).2.2.1 rfl
    (by norm_num [restingAnt, Ant.create])
    (by norm_num [restingAnt, Ant.create])

/-! ## Claim C3 — tick order

`AntColony.update` (part_003 lines 97-108) updates the ants *first*, then
spawns, then decays the pheromone field; so the agents observe the
pre-decay field of the current tick, contrary to the claimed decay-first
order. -/

/-- C3, counterexample: one carrying RETURNING ant in transit deposits 0.5
onto a FOOD entry of level 1.  The source tick (deposit, then decay by
factor 0.95) leaves level (1+0.5)·0.95 = 1.425, while the claimed
decay-first tick leaves 1·0.95 + 0.5 = 1.45; the two tick functions disagree
on the same state, so the claimed order is not the code's order. -/
theorem c3_counterexample :
    (transitColony.update 1 []).map (fun r => r.1.getPheromoneLevel 0 1 "FOOD") = some (57/40) ∧
    (transitColony.updateSpecOrder 1 []).map (fun r => r.1.getPheromoneLevel 0 1 "FOOD") = some (29/20) ∧
    (57 : ℚ)/40 ≠ 29/20 := by
  refine ⟨?_, ?_, by norm_num⟩ <;>
  norm_num [AntColony.update, AntColony.updateSpecOrder, AntColony.updateAnts,
    AntColony.updateAntsGo, Ant.update, Ant.updateFatigue, Ant.updateMovement,
    Ant.shouldDepositPheromone, Ant.depositPheromone, AntColony.depositPheromone,
    AntColony.updatePheromones, AntColony.updateAntSpawning, AntColony.spawnAnt,
    AntColony.getPheromoneLevel, transitColony, transitAnt, emptyColony, twoNodeGraph,
    plainNode, Ant.create, ColonyParams.default, Graph.getNodePosition, Pos.lerp,
    aset, alookup, min_def, List.filterMap_cons, List.filterMap_nil]

/-- C3 (amended): one tick of `AntColony.update` runs every agent first (in
iteration order over the agent collection, each agent seeing the writes of
the agents before it), then spawns at most one new agent, and applies the
pheromone decay *last* — so agents observe the previous tick's field, not a
freshly decayed one; spawning never removes agents and decay never touches
them. -/
theorem c3_tick_order_amended (c : AntColony) (dt : ℚ) (draws : List ℚ) :
    c.update dt draws = (c.updateAnts dt draws).map
      (fun r => ((r.1.updateAntSpawning dt).updatePheromones dt, r.2)) ∧
    (c.updateAntSpawning dt).ants.length ≤ c.ants.length + 1 ∧
    (c.updatePheromones dt).ants = c.ants := by
  refine ⟨?_, ?_, rfl⟩
  · rw [AntColony.update]
    cases h : c.updateAnts dt draws with
    | none => simp
    | some r => cases r; simp
  · simp only [AntColony.updateAntSpawning, AntColony.spawnAnt]
    split_ifs <;> simp

/-! ## Claim C6 — resources never exceed capacity

The per-tick update (`updateNodes`) does preserve `resources ≤ capacity`
(regeneration clamps with `Math.min(·, capacity)`), but the invariant is
already false right after world setup: `createDefaultGraph` gives every
corner FOOD_SOURCE node `resources: 100` with `capacity: 10` (game.js lines
77-93). -/

theorem Graph.addEdge_nodes (g : Graph) (a b : Nat) : (g.addEdge a b).2.nodes = g.nodes := by
  rw [Graph.addEdge]
  split_ifs <;> rfl

theorem nodes_addEdge_match (g : Graph) (a : Nat) (o : Option Nat) :
    (match o with | some b => (g.addEdge a b).2 | none => g).nodes = g.nodes := by
  cases o with
  | none => rfl
  | some b => exact Graph.addEdge_nodes g a b

theorem alookup_mapValues {γ : Type} (l : List (α × β)) (f : β → γ) (k : α) :
    alookup (l.map (fun kv => (kv.1, f kv.2))) k = (alookup l k).map f := by
  induction l with
  | nil => rfl
  | cons hd tl ih =>
      obtain ⟨k0, v0⟩ := hd
      by_cases h : k0 = k <;> simp [alookup, h, ih]

theorem alookup_resetDist (l : List (Nat × Node)) (k : Nat) :
    alookup (l.map (fun kv => (kv.1, { kv.2 with distanceToNest := none }))) k =
      (alookup l k).map (fun nd => { nd with distanceToNest := none }) := by
  induction l with
  | nil => rfl
  | cons hd tl ih =>
      obtain ⟨k0, v0⟩ := hd
      by_cases h : k0 = k <;> simp [alookup, h, ih]

theorem distOnly_refl (nodes : List (Nat × Node)) : DistOnly nodes nodes :=
  fun _ => rfl

theorem distOnly_trans {n1 n2 n3 : List (Nat × Node)}
    (h12 : DistOnly n1 n2) (h23 : DistOnly n2 n3) : DistOnly n1 n3 :=
  fun n => (h23 n).trans (h12 n)

theorem distOnly_aset_dist {nodes : List (Nat × Node)} {m : Nat} {nd : Node}
    (hm : alookup nodes m = some nd) (v : Option Nat) :
    DistOnly nodes (aset nodes m { nd with distanceToNest := v }) := by
  intro n
  by_cases h : m = n
  · subst h
    rw [alookup_aset_self, hm]
    simp [stripDist]
  · rw [alookup_aset_ne _ _ _ _ h]

theorem bfsRelax_distOnly (visited : List Nat) (newD : Nat) :
    ∀ (ns : List Nat) (nodes : List (Nat × Node)) (queue : List Nat),
    DistOnly nodes (Graph.bfsRelax visited newD ns nodes queue).1 := by
  intro ns
  induction ns with
  | nil => intro nodes queue; exact distOnly_refl nodes
  | cons m rest ih =>
      intro nodes queue
      rw [Graph.bfsRelax]
      by_cases hv : m ∈ visited
      · rw [if_pos hv]; exact ih nodes queue
      · rw [if_neg hv]
        cases hlk : alookup nodes m with
        | none => exact ih nodes queue
        | some nd =>
            dsimp only
            by_cases himp : distImproves newD nd.distanceToNest = true
            · rw [if_pos himp]
              exact distOnly_trans (distOnly_aset_dist hlk _) (ih _ _)
            · rw [if_neg himp]
              exact ih nodes queue

theorem bfsLoop_distOnly (edges : List (Nat × List Nat)) :
    ∀ (fuel : Nat) (nodes : List (Nat × Node)) (queue visited : List Nat),
    DistOnly nodes (Graph.bfsLoop edges fuel nodes queue visited) := by
  intro fuel
  induction fuel with
  | zero => intro nodes queue visited; exact distOnly_refl nodes
  | succ f ih =>
      intro nodes queue visited
      cases queue with
      | nil => exact distOnly_refl nodes
      | cons currentId rest =>
          rw [Graph.bfsLoop]
          by_cases hv : currentId ∈ visited
          · rw [if_pos hv]; exact ih nodes rest visited
          · rw [if_neg hv]
            cases hlk : alookup nodes currentId with
            | none => exact ih nodes rest _
            | some nd =>
                dsimp only
                cases hd : nd.distanceToNest with
                | none => exact ih nodes rest _
                | some cd =>
                    dsimp only
                    exact distOnly_trans (bfsRelax_distOnly _ _ _ _ _) (ih _ _ _)

theorem calculateDistances_distOnly (g : Graph) (T : Nat) :
    DistOnly g.nodes (g.calculateDistances T).nodes := by
  rw [Graph.calculateDistances]
  have h0 : DistOnly g.nodes
      (g.nodes.map (fun kv => (kv.1, { kv.2 with distanceToNest := none }))) := by
    intro n
    rw [alookup_resetDist]
    cases alookup g.nodes n <;> simp [stripDist]
  cases hlk : alookup (g.nodes.map (fun kv => (kv.1, { kv.2 with distanceToNest := none }))) T with
  | none => simpa [hlk] using distOnly_trans h0 (bfsLoop_distOnly _ _ _ _ _)
  | some nd =>
      simp only [hlk]
      exact distOnly_trans h0
        (distOnly_trans (distOnly_aset_dist hlk _) (bfsLoop_distOnly _ _ _ _ _))

theorem nodeRCT_of_distOnly {g g' : Graph} (h : DistOnly g.nodes g'.nodes) (n : Nat) :
    nodeRCT g' n = nodeRCT g n := by
  have hn := h n
  rw [nodeRCT, nodeRCT]
  have hfac : ∀ (l : List (Nat × Node)),
      (alookup l n).map (fun nd => (nd.resources, nd.capacity, nd.type)) =
      ((alookup l n).map stripDist).map (fun nd => (nd.resources, nd.capacity, nd.type)) := by
    intro l
    cases alookup l n <;> simp [stripDist]
  rw [hfac, hfac, hn]

theorem foldl_preserves {σ τ : Type} (P : σ → Prop) (f : σ → τ → σ)
    (hstep : ∀ s t, P s → P (f s t)) :
    ∀ (l : List τ) (s : σ), P s → P (l.foldl f s) := by
  intro l
  induction l with
  | nil => intro s hs; simpa using hs
  | cons t rest ih =>
      intro s hs
      rw [List.foldl_cons]
      exact ih _ (hstep s t hs)

theorem addEdgeIfFound_nodes (g : Graph) (a : Nat) (o : Option Nat) :
    (addEdgeIfFound g a o).nodes = g.nodes := by
  cases o with
  | none => rfl
  | some b => exact Graph.addEdge_nodes g a b

theorem defaultCell_preserves (g : Graph) (fresh nest : Nat) (x z : ℤ)
    (h2 : 2 ≤ fresh) :
    nodeRCT (GameManager.defaultCell g fresh nest x z).1 1 = nodeRCT g 1 ∧
    2 ≤ (GameManager.defaultCell g fresh nest x z).2 := by
  have hfresh : fresh ≠ 1 := by omega
  rw [GameManager.defaultCell]
  by_cases h : x = 0 ∧ z = 0
  · rw [if_pos h]
    exact ⟨rfl, h2⟩
  · rw [if_neg h]
    dsimp only
    refine ⟨?_, by omega⟩
    rw [nodeRCT, nodeRCT]
    split_ifs <;>
      simp only [Graph.addEdge_nodes, addEdgeIfFound_nodes, Graph.addNode,
        Option.getD_none, Option.getD_some, alookup_aset_ne _ _ _ _ hfresh]

/-- The corner cell (−5, −5) is processed first: it creates node 1 as a
FOOD_SOURCE with resources 100 and capacity 10 and adds no edges. -/
theorem defaultCell_corner (g : Graph) :
    nodeRCT (GameManager.defaultCell g 1 0 (-5) (-5)).1 1 = some (100, 10, "FOOD_SOURCE") ∧
    (GameManager.defaultCell g 1 0 (-5) (-5)).2 = 2 := by
  rw [GameManager.defaultCell]
  rw [if_neg (by decide)]
  refine ⟨?_, rfl⟩
  rw [nodeRCT]
  dsimp only
  simp only [if_neg (by decide : ¬((-5:ℤ) > -5)),
    if_neg (by decide : ¬(|(-5:ℤ)| ≤ 1 ∧ |(-5:ℤ)| ≤ 1)),
    if_pos (by decide : 4 ≤ |(-5:ℤ)| ∧ 4 ≤ |(-5:ℤ)|),
    Graph.addNode, Option.getD_none, Option.getD_some]
  rw [alookup_aset_self]
  rfl

theorem defaultCell_step (x : ℤ) (s : Graph × Nat) (z : ℤ)
    (hs : nodeRCT s.1 1 = some (100, 10, "FOOD_SOURCE") ∧ 2 ≤ s.2) :
    nodeRCT (GameManager.defaultCell s.1 s.2 0 x z).1 1 = some (100, 10, "FOOD_SOURCE") ∧
      2 ≤ (GameManager.defaultCell s.1 s.2 0 x z).2 := by
  obtain ⟨ha, hb⟩ := defaultCell_preserves s.1 s.2 0 x z hs.2
  exact ⟨by rw [ha, hs.1], hb⟩

theorem innerFold_preserves (x : ℤ) (zs : List ℤ) (s : Graph × Nat)
    (h : nodeRCT s.1 1 = some (100, 10, "FOOD_SOURCE") ∧ 2 ≤ s.2) :
    nodeRCT (zs.foldl (fun acc2 z => GameManager.defaultCell acc2.1 acc2.2 0 x z) s).1 1 =
        some (100, 10, "FOOD_SOURCE") ∧
      2 ≤ (zs.foldl (fun acc2 z => GameManager.defaultCell acc2.1 acc2.2 0 x z) s).2 :=
  foldl_preserves _ _ (defaultCell_step x) zs s h

theorem outerFold_preserves (xs : List ℤ) (s : Graph × Nat)
    (h : nodeRCT s.1 1 = some (100, 10, "FOOD_SOURCE") ∧ 2 ≤ s.2) :
    nodeRCT (xs.foldl (fun acc x => List.foldl
        (fun acc2 z => GameManager.defaultCell acc2.1 acc2.2 0 x z) acc
        [-5, -4, -3, -2, -1, 0, 1, 2, 3, 4, 5]) s).1 1 = some (100, 10, "FOOD_SOURCE") ∧
      2 ≤ (xs.foldl (fun acc x => List.foldl
        (fun acc2 z => GameManager.defaultCell acc2.1 acc2.2 0 x z) acc
        [-5, -4, -3, -2, -1, 0, 1, 2, 3, 4, 5]) s).2 :=
  foldl_preserves _ _ (fun s2 x hs2 => innerFold_preserves x _ s2 hs2) xs s h

/-- C6, counterexample: right after world setup (`createDefaultGraph`), node
1 — the grid corner at (−5,−5) — is a FOOD_SOURCE with resources 100 and
capacity 10, so `resources ≤ capacity` fails in the initial state. -/
theorem c6_counterexample :
    nodeRCT (GameManager.createDefaultGraph []).1 1 = some (100, 10, "FOOD_SOURCE") ∧
    ¬ ((100 : ℚ) ≤ 10) := by
  refine ⟨?_, by norm_num⟩
  rw [GameManager.createDefaultGraph]
  dsimp only [Graph.addNode, Option.getD_none]
  rw [List.foldl_nil]
  rw [nodeRCT_of_distOnly (calculateDistances_distOnly _ _)]
  have hgrid : gridCoords = [-5, -4, -3, -2, -1, 0, 1, 2, 3, 4, 5] := by decide
  simp only [hgrid]
  rw [List.foldl_cons]
  nth_rewrite 2 [List.foldl_cons]
  exact (outerFold_preserves _ _ (innerFold_preserves (-5) _ _
    ⟨(defaultCell_corner _).1, by rw [(defaultCell_corner _).2]⟩)).1

theorem updateNode_res_cap (node : Node) (dt : ℚ) (h : node.resources ≤ node.capacity) :
    (GameManager.updateNode node dt).resources ≤ (GameManager.updateNode node dt).capacity := by
  obtain ⟨ty, pos, sz, cap, res, dist, bo, di, bt, dtm, rt⟩ := node
  dsimp only at h
  simp only [GameManager.updateNode]
  split_ifs <;> dsimp only <;> first | exact h | exact min_le_right _ _

/-- C6 (amended): the per-tick node update (`updateNodes`) preserves
`resources ≤ capacity` for every node (regeneration is clamped by
`Math.min(resources + 1, capacity)`); the invariant fails only because world
setup itself creates corner FOOD_SOURCE nodes with resources 100 over
capacity 10. -/
theorem c6_tick_resources_amended (nodes : List (Nat × Node)) (dt : ℚ)
    (h : ∀ kv ∈ nodes, kv.2.resources ≤ kv.2.capacity) :
    ∀ kv ∈ GameManager.updateNodes nodes dt, kv.2.resources ≤ kv.2.capacity := by
  intro kv hkv
  simp only [GameManager.updateNodes, List.mem_map] at hkv
  obtain ⟨kv0, hkv0, rfl⟩ := hkv
  exact updateNode_res_cap kv0.2 dt (h kv0 hkv0)

/-- Witness for C6 (amended) on a one-node list over one second. -/
theorem c6_tick_resources_amended_witness :
    (∀ kv ∈ [((0 : Nat), plainNode)], kv.2.resources ≤ kv.2.capacity) ∧
    (∀ kv ∈ GameManager.updateNodes [((0 : Nat), plainNode)] 1,
      kv.2.resources ≤ kv.2.capacity) := by
  have h : ∀ kv ∈ [((0 : Nat), plainNode)], kv.2.resources ≤ kv.2.capacity := by
    intro kv hkv
    simp only [List.mem_singleton] at hkv
    subst hkv
    norm_num [plainNode]
  exact ⟨h, c6_tick_resources_amended _ 1 h⟩

/-! ## Claim C5 — findPath and disrupted nodes

The neighbor expansion does skip disrupted nodes, but the start node enters
the open set unconditionally — `findPath(S, S)` returns `[S]` even when `S`
is disrupted, so a returned sequence *can* contain a disrupted node, namely
the start. -/

theorem findPathLowest_mem (fScore : List (Nat × ℚ)) :
    ∀ (ns : List Nat) (cur : Nat) (low : ℚ),
      Graph.findPathLowest fScore ns cur low ∈ cur :: ns := by
  intro ns
  induction ns with
  | nil => intro cur low; simp [Graph.findPathLowest]
  | cons n rest ih =>
      intro cur low
      rw [Graph.findPathLowest]
      split_ifs
      · have := ih n ((alookup fScore n).getD 0)
        simp only [List.mem_cons] at this ⊢
        tauto
      · have := ih cur low
        simp only [List.mem_cons] at this ⊢
        tauto

theorem findPathRelax_inv (g : Graph) (h : Nat → Nat → ℚ) (startNodeId endNodeId current : Nat)
    (hcur : OkNode g startNodeId current) :
    ∀ (ns : List Nat) (s : AStarState),
      (∀ x ∈ s.openSet, OkNode g startNodeId x) →
      (∀ kv ∈ s.cameFrom, OkNode g startNodeId kv.1 ∧ OkNode g startNodeId kv.2) →
      (∀ x ∈ (Graph.findPathRelax g h endNodeId current ns s).openSet, OkNode g startNodeId x) ∧
      (∀ kv ∈ (Graph.findPathRelax g h endNodeId current ns s).cameFrom,
        OkNode g startNodeId kv.1 ∧ OkNode g startNodeId kv.2) := by
  intro ns
  induction ns with
  | nil => intro s hopen hcf; exact ⟨hopen, hcf⟩
  | cons m rest ih =>
      intro s hopen hcf
      rw [Graph.findPathRelax]
      cases hlk : alookup g.nodes m with
      | none => exact ih s hopen hcf
      | some nd =>
          dsimp only
          by_cases hdis : nd.disrupted
          · rw [if_pos hdis]
            exact ih s hopen hcf
          · rw [if_neg hdis]
            have hm : OkNode g startNodeId m :=
              Or.inr ⟨nd, hlk, by simpa using hdis⟩
            have hopen2 : ∀ x ∈ (if s.openSet.contains m = true then s.openSet
                else s.openSet ++ [m]), OkNode g startNodeId x := by
              split_ifs
              · exact hopen
              · intro x hx
                rcases List.mem_append.mp hx with hx | hx
                · exact hopen x hx
                · rw [List.mem_singleton] at hx
                  subst hx
                  exact hm
            have hcf2 : ∀ kv ∈ aset s.cameFrom m current,
                OkNode g startNodeId kv.1 ∧ OkNode g startNodeId kv.2 := by
              intro kv hkv
              rcases mem_aset hkv with hkv | hkv
              · exact hcf kv hkv
              · subst hkv
                exact ⟨hm, hcur⟩
            by_cases hcond : gScoreMissingOrZero s.gScore m = true ∨
                distQLt ((alookup s.gScore current).getD 0 + 1) (alookup s.gScore m) = true
            · rw [if_pos hcond]
              exact ih _ hopen2 hcf2
            · rw [if_neg hcond]
              exact ih s hopen hcf

theorem reconstructPath_ok (g : Graph) (startNodeId : Nat) (cf : List (Nat × Nat))
    (hcf : ∀ kv ∈ cf, OkNode g startNodeId kv.1 ∧ OkNode g startNodeId kv.2) :
    ∀ (fuel : Nat) (cur : Nat) (path p : List Nat),
      OkNode g startNodeId cur → (∀ x ∈ path, OkNode g startNodeId x) →
      Graph.reconstructPath fuel cf cur path = some p →
      ∀ x ∈ p, OkNode g startNodeId x := by
  intro fuel
  induction fuel with
  | zero => intro cur path p _ _ hrun; simp [Graph.reconstructPath] at hrun
  | succ f ih =>
      intro cur path p hcur hpath hrun
      rw [Graph.reconstructPath] at hrun
      cases hlk : alookup cf cur with
      | none =>
          rw [hlk] at hrun
          injection hrun with hp
          subst hp
          exact hpath
      | some prev =>
          rw [hlk] at hrun
          have hprev : OkNode g startNodeId prev := (hcf _ (mem_of_alookup hlk)).2
          refine ih prev (prev :: path) p hprev ?_ hrun
          intro x hx
          rcases List.mem_cons.mp hx with hx | hx
          · subst hx; exact hprev
          · exact hpath x hx

theorem findPathLoop_ok (g : Graph) (h : Nat → Nat → ℚ) (startNodeId endNodeId : Nat) :
    ∀ (fuel : Nat) (s : AStarState) (p : List Nat),
      (∀ x ∈ s.openSet, OkNode g startNodeId x) →
      (∀ kv ∈ s.cameFrom, OkNode g startNodeId kv.1 ∧ OkNode g startNodeId kv.2) →
      Graph.findPathLoop g h endNodeId fuel s = some p →
      ∀ x ∈ p, OkNode g startNodeId x := by
  intro fuel
  induction fuel with
  | zero => intro s p _ _ hrun; simp [Graph.findPathLoop] at hrun
  | succ f ih =>
      intro s p hopen hcf hrun
      rw [Graph.findPathLoop] at hrun
      cases hos : s.openSet with
      | nil =>
          rw [hos] at hrun
          injection hrun with hp
          subst hp
          intro x hx
          simp at hx
      | cons o0 rest =>
          rw [hos] at hrun
          dsimp only at hrun
          set cur := Graph.findPathLowest s.fScore rest o0 ((alookup s.fScore o0).getD 0) with hcurdef
          have hcur : OkNode g startNodeId cur := by
            apply hopen
            rw [hos]
            exact findPathLowest_mem _ _ _ _
          split_ifs at hrun with hend
          · exact reconstructPath_ok g startNodeId s.cameFrom hcf _ _ _ _ hcur
              (by intro x hx; rw [List.mem_singleton] at hx; subst hx; exact hcur) hrun
          · have hopen1 : ∀ x ∈ (o0 :: rest).erase cur, OkNode g startNodeId x := by
              intro x hx
              apply hopen
              rw [hos]
              exact List.mem_of_mem_erase hx
            have hinv := findPathRelax_inv g h startNodeId endNodeId cur hcur
              (g.getNeighbors cur) { s with openSet := (o0 :: rest).erase cur } hopen1 hcf
            exact ih _ p hinv.1 hinv.2 hrun

/-- C5 (amended): a sequence returned by `findPath` never contains a
disrupted node *other than the start node*: every element is either the
start or a present non-disrupted node.  (The claim as stated fails because
the start is never checked — see the counterexample.) -/
theorem c5_no_disrupted_amended (g : Graph) (h : Nat → Nat → ℚ)
    (startNodeId endNodeId : Nat) (fuel : Nat) (p : List Nat)
    (hrun : g.findPath h startNodeId endNodeId fuel = some p) :
    ∀ x ∈ p, OkNode g startNodeId x := by
  refine findPathLoop_ok g h startNodeId endNodeId fuel _ p ?_ ?_ hrun
  · intro x hx
    rw [List.mem_singleton] at hx
    subst hx
    exact Or.inl rfl
  · intro kv hkv
    simp at hkv

/-- C5, counterexample: with a disrupted start node S, `findPath(S, S)`
returns `[S]` — a sequence containing a disrupted node, contradicting the
claim (the disruption check only guards neighbor expansion, never the start
itself). -/
theorem c5_counterexample :
    disruptedStartGraph.findPath hZero 0 0 1 = some [0] ∧
    (alookup disruptedStartGraph.nodes 0).map Node.disrupted = some true := by
  constructor <;> decide

/-- Witness for C5 (amended): a completed run from the disrupted node 0 to
its neighbor 1 returns `[0, 1]`, and every element is the start or
non-disrupted. -/
theorem c5_no_disrupted_amended_witness :
    disruptedStartGraph.findPath hZero 0 1 3 = some [0, 1] ∧
    ∀ x ∈ [0, 1], OkNode disruptedStartGraph 0 x := by
  have hrun : disruptedStartGraph.findPath hZero 0 1 3 = some [0, 1] := by
    norm_num [Graph.findPath, Graph.findPathLoop, Graph.findPathLowest, Graph.findPathRelax,
      Graph.reconstructPath, Graph.getNeighbors, gScoreMissingOrZero, distQLt,
      disruptedStartGraph, plainNode, hZero, aset, alookup, List.erase]
  exact ⟨hrun, c5_no_disrupted_amended disruptedStartGraph hZero 0 1 3 [0, 1] hrun⟩

/-! ## Claim C2 — findPath does not compute shortest paths: it hangs

On the path graph 0 – 1 – 2 (`lineGraph`, all nodes at one position so the
Euclidean heuristic is exactly 0), `findPath(0, 2)` never returns:

* popping 0 discovers 1 (`cameFrom[1] = 0`);
* popping 1 re-parents the start — `!gScore[0]` is true because the start's
  `gScore` is the falsy number 0 — setting `cameFrom[0] = 1` and `gScore[0] = 2`,
  and discovers 2 (`cameFrom[2] = 1`);
* popping 0 again changes nothing; popping 2 (the goal) enters
  `reconstructPath`, which walks 2 → 1 → 0 → 1 → 0 → … forever.

In the fuel model: for every fuel the run yields `none`. -/

theorem reconstructPath_cycle :
    ∀ (f : Nat) (path : List Nat),
      Graph.reconstructPath f [(1, 0), (0, 1), (2, 1)] 0 path = none ∧
      Graph.reconstructPath f [(1, 0), (0, 1), (2, 1)] 1 path = none := by
  intro f
  induction f with
  | zero => intro path; exact ⟨rfl, rfl⟩
  | succ f ih =>
      intro path
      constructor
      · rw [Graph.reconstructPath]
        exact (ih _).2
      · rw [Graph.reconstructPath]
        exact (ih _).1

theorem c2_step1 (m : Nat) :
    Graph.findPathLoop lineGraph hZero 2 (m + 1)
      ⟨[0], [], [(0, 0)], [(0, 0)]⟩ =
    Graph.findPathLoop lineGraph hZero 2 m
      ⟨[1], [(1, 0)], [(0, 0), (1, 1)], [(0, 0), (1, 1)]⟩ := by
  rw [Graph.findPathLoop]
  norm_num [Graph.findPathLowest, Graph.findPathRelax, Graph.getNeighbors,
    gScoreMissingOrZero, distQLt, lineGraph, plainNode, hZero, aset, alookup,
    List.erase, Graph.empty, Graph.addNode, Graph.addEdge, Graph.hasEdge]

theorem c2_step2 (m : Nat) :
    Graph.findPathLoop lineGraph hZero 2 (m + 1)
      ⟨[1], [(1, 0)], [(0, 0), (1, 1)], [(0, 0), (1, 1)]⟩ =
    Graph.findPathLoop lineGraph hZero 2 m
      ⟨[0, 2], [(1, 0), (0, 1), (2, 1)], [(0, 2), (1, 1), (2, 2)], [(0, 2), (1, 1), (2, 2)]⟩ := by
  rw [Graph.findPathLoop]
  norm_num [Graph.findPathLowest, Graph.findPathRelax, Graph.getNeighbors,
    gScoreMissingOrZero, distQLt, lineGraph, plainNode, hZero, aset, alookup,
    List.erase, Graph.empty, Graph.addNode, Graph.addEdge, Graph.hasEdge]

theorem c2_step3 (m : Nat) :
    Graph.findPathLoop lineGraph hZero 2 (m + 1)
      ⟨[0, 2], [(1, 0), (0, 1), (2, 1)], [(0, 2), (1, 1), (2, 2)], [(0, 2), (1, 1), (2, 2)]⟩ =
    Graph.findPathLoop lineGraph hZero 2 m
      ⟨[2], [(1, 0), (0, 1), (2, 1)], [(0, 2), (1, 1), (2, 2)], [(0, 2), (1, 1), (2, 2)]⟩ := by
  rw [Graph.findPathLoop]
  norm_num [Graph.findPathLowest, Graph.findPathRelax, Graph.getNeighbors,
    gScoreMissingOrZero, distQLt, lineGraph, plainNode, hZero, aset, alookup,
    List.erase, Graph.empty, Graph.addNode, Graph.addEdge, Graph.hasEdge]

theorem c2_step4 (m : Nat) :
    Graph.findPathLoop lineGraph hZero 2 (m + 1)
      ⟨[2], [(1, 0), (0, 1), (2, 1)], [(0, 2), (1, 1), (2, 2)], [(0, 2), (1, 1), (2, 2)]⟩ =
    Graph.reconstructPath m [(1, 0), (0, 1), (2, 1)] 1 [1, 2] := by
  rw [Graph.findPathLoop]
  norm_num [Graph.findPathLowest, Graph.reconstructPath, lineGraph, hZero,
    aset, alookup, List.erase]

/-- C2: the claim fails because `findPath` does not terminate on reachable
inputs.  On the 3-node path graph with no disrupted nodes, the two-hop query
`findPath(0, 2)` returns nothing for *any* amount of fuel — the JS falsy test
`!gScore[neighborId]` re-parents the start node (whose gScore is 0), putting
a 0 ↔ 1 cycle into `cameFrom`, and `reconstructPath` then loops forever —
instead of returning the shortest path `[0, 1, 2]` of hop length 2.  (All
three nodes share one position, so the source's Euclidean heuristic is
exactly the 0 heuristic used here, as the second conjunct certifies.) -/
theorem c2_findPath_diverges :
    (∀ fuel, lineGraph.findPath hZero 0 2 fuel = none) ∧
    (∀ a ∈ [0, 1, 2], lineGraph.heuristicSq a 2 = some 0) := by
  constructor
  · intro fuel
    cases fuel with
    | zero => rfl
    | succ n =>
        show Graph.findPathLoop lineGraph hZero 2 (n + 1)
          ⟨[0], [], [(0, 0)], [(0, hZero 0 2)]⟩ = none
        rw [show (⟨[0], [], [(0, 0)], [(0, hZero 0 2)]⟩ : AStarState)
          = ⟨[0], [], [(0, 0)], [(0, 0)]⟩ from rfl]
        rw [c2_step1 n]
        cases n with
        | zero => rfl
        | succ m =>
            rw [c2_step2 m]
            cases m with
            | zero => rfl
            | succ k =>
                rw [c2_step3 k]
                cases k with
                | zero => rfl
                | succ j =>
                    rw [c2_step4 j]
                    exact (reconstructPath_cycle j [1, 2]).2
  · intro a ha
    fin_cases ha <;>
      norm_num [Graph.heuristicSq, Graph.getNodePosition, lineGraph, Graph.empty,
        Graph.addNode, Graph.addEdge, Graph.hasEdge, Graph.getNeighbors, aset, alookup]

/-! ## Claim C1 — correctness of `calculateDistances`

The unit-weight FIFO relaxation with a visited set computes exact shortest
hop distances.  The proof maintains `BfsInv`: queue values are sorted and
every assigned value is at most one above the queue head, so an assigned
distance is never improved again; each node is therefore expanded at most
once with its final distance, the visited set is fully relaxed, and at
termination (the queue empties within `nodes.length + 1` iterations, by the
measure `queue.length + countNone`) assigned distances are sound and
complete. -/

theorem distOf_aset (nodes : List (Nat × Node)) (m : Nat) (nd2 : Node) :
    distOf (aset nodes m nd2) m = nd2.distanceToNest := by
  rw [distOf, alookup_aset_self]

theorem distOf_aset_ne (nodes : List (Nat × Node)) (m n : Nat) (nd2 : Node)
    (h : m ≠ n) : distOf (aset nodes m nd2) n = distOf nodes n := by
  rw [distOf, distOf, alookup_aset_ne _ _ _ _ h]

theorem distOnly_isSome {nodes nodes' : List (Nat × Node)}
    (h : DistOnly nodes nodes') (n : Nat) :
    (alookup nodes' n).isSome = (alookup nodes n).isSome := by
  have hn := h n
  cases h1 : alookup nodes' n <;> cases h2 : alookup nodes n <;>
    rw [h1, h2] at hn <;> simp_all

theorem neighbors_symm {g : Graph} (hsymm : g.SymmEdges) {a b : Nat}
    (hb : b ∈ g.getNeighbors a) : a ∈ g.getNeighbors b := by
  rw [Graph.getNeighbors] at hb
  cases hlk : alookup g.edges a with
  | none => rw [hlk] at hb; simp at hb
  | some ns =>
      rw [hlk] at hb
      simp only [Option.getD_some] at hb
      exact hsymm (a, ns) (mem_of_alookup hlk) b hb

theorem akeys_map_values {γ : Type} (l : List (α × β)) (f : β → γ) :
    akeys (l.map (fun kv => (kv.1, f kv.2))) = akeys l := by
  induction l with
  | nil => rfl
  | cons hd tl ih => simp [akeys] at ih ⊢

theorem filter_length_flip {m : Nat} (p q : Nat → Bool) :
    ∀ (l : List Nat), m ∈ l → l.Nodup →
    (∀ x ∈ l, x ≠ m → p x = q x) → p m = true → q m = false →
    (l.filter p).length = (l.filter q).length + 1 := by
  intro l
  induction l with
  | nil => intro hm; simp at hm
  | cons x tl ih =>
      intro hm hnd hpq hp hq
      rcases List.mem_cons.mp hm with hx | hx
      · subst hx
        have htl : ∀ y ∈ tl, p y = q y := by
          intro y hy
          have hym : y ≠ m := by
            intro hcon
            subst hcon
            exact (List.nodup_cons.mp hnd).1 hy
          exact hpq y (List.mem_cons_of_mem _ hy) hym
        have hfilter : tl.filter p = tl.filter q := List.filter_congr htl
        rw [List.filter_cons, List.filter_cons, if_pos hp, if_neg (by simp [hq]), hfilter]
        simp
      · have hxm : x ≠ m := by
          intro hcon
          subst hcon
          exact (List.nodup_cons.mp hnd).1 hx
        have hrec := ih hx (List.nodup_cons.mp hnd).2
          (fun y hy hym => hpq y (List.mem_cons_of_mem _ hy) hym) hp hq
        have hqx : p x = q x := hpq x (List.mem_cons_self _ _) hxm
        by_cases hpx : p x = true
        · rw [List.filter_cons, List.filter_cons, if_pos hpx, if_pos (hqx ▸ hpx)]
          simp [hrec]
        · rw [List.filter_cons, List.filter_cons, if_neg hpx, if_neg (hqx ▸ hpx)]
          exact hrec

theorem head_eq_some_mem {l : List Nat} {a : Nat} (h : l.head? = some a) :
    a ∈ l := by
  cases l with
  | nil => simp at h
  | cons x tl =>
      simp only [List.head?_cons, Option.some.injEq] at h
      subst h
      exact List.mem_cons_self _ _

theorem countNone_le_akeys (nodes : List (Nat × Node)) :
    countNone nodes ≤ (akeys nodes).length := by
  rw [countNone]
  exact le_trans (List.length_filter_le _ _)
    (List.Sublist.length_le (List.dedup_sublist _))

theorem countNone_aset_assign (nodes : List (Nat × Node)) (m : Nat)
    (nd nd2 : Node) (d : Nat) (hlk : alookup nodes m = some nd)
    (hnone : nd.distanceToNest = none) (hd2 : nd2.distanceToNest = some d) :
    countNone nodes = countNone (aset nodes m nd2) + 1 := by
  have hmem : m ∈ akeys nodes := mem_akeys_of_alookup hlk
  have hak : akeys (aset nodes m nd2) = akeys nodes := akeys_aset_of_mem _ _ _ hmem
  rw [countNone, countNone, hak]
  refine filter_length_flip _ _ _ (List.mem_dedup.mpr hmem) (List.nodup_dedup _)
    ?_ ?_ ?_
  · intro x _ hxm
    have hne : distOf (aset nodes m nd2) x = distOf nodes x :=
      distOf_aset_ne _ _ _ _ (fun h => hxm h.symm)
    simp [hne]
  · simp [distOf, hlk, hnone]
  · simp [distOf_aset, hd2]

theorem pairwise_le_map_const (l : List Nat) (c : Nat) :
    (l.map (fun _ => c)).Pairwise (· ≤ ·) := by
  induction l with
  | nil => simp
  | cons x tl ih =>
      rw [List.map_cons, List.pairwise_cons]
      refine ⟨?_, ih⟩
      intro y hy
      rcases List.mem_map.mp hy with ⟨z, _, rfl⟩
      exact le_refl c

theorem forall2_mem_right {r : α → β → Prop} {l1 : List α} {l2 : List β}
    (h : List.Forall₂ r l1 l2) : ∀ x ∈ l2, ∃ a ∈ l1, r a x := by
  induction h with
  | nil => intro x hx; simp at hx
  | cons hr htail ih =>
      intro x hx
      rcases List.mem_cons.mp hx with rfl | hx2
      · exact ⟨_, List.mem_cons_self _ _, hr⟩
      · rcases ih x hx2 with ⟨a, ha, har⟩
        exact ⟨a, List.mem_cons_of_mem _ ha, har⟩

theorem forall2_map_const {r : Nat → Nat → Prop} (l : List Nat) (c : Nat)
    (h : ∀ x ∈ l, r x c) : List.Forall₂ r l (l.map (fun _ => c)) := by
  induction l with
  | nil => exact List.Forall₂.nil
  | cons x tl ih =>
      rw [List.map_cons]
      exact List.Forall₂.cons (h x (List.mem_cons_self _ _))
        (ih (fun y hy => h y (List.mem_cons_of_mem _ hy)))

theorem forall2_append {r : α → β → Prop} {l1 u1 : List α} {l2 u2 : List β}
    (h1 : List.Forall₂ r l1 l2) (h2 : List.Forall₂ r u1 u2) :
    List.Forall₂ r (l1 ++ u1) (l2 ++ u2) := by
  induction h1 with
  | nil => simpa using h2
  | cons hr ht ih => exact List.Forall₂.cons hr ih

theorem forall2_cons_left {r : α → β → Prop} {a : α} {l1 : List α}
    {u : List β} (h : List.Forall₂ r (a :: l1) u) :
    ∃ b u2, u = b :: u2 ∧ r a b ∧ List.Forall₂ r l1 u2 := by
  cases h with
  | cons hr ht => exact ⟨_, _, rfl, hr, ht⟩

theorem distOf_eq_some {nodes : List (Nat × Node)} {n : Nat} {v : Nat}
    (h : distOf nodes n = some v) :
    ∃ nd, alookup nodes n = some nd ∧ nd.distanceToNest = some v := by
  rw [distOf] at h
  cases hk : alookup nodes n with
  | none => rw [hk] at h; simp at h
  | some nd => rw [hk] at h; exact ⟨nd, rfl, h⟩

theorem distOf_resetDist (l : List (Nat × Node)) (n : Nat) :
    distOf (l.map (fun kv => (kv.1, { kv.2 with distanceToNest := none }))) n =
      none := by
  rw [distOf, alookup_resetDist]
  cases alookup l n <;> rfl

theorem akeys_resetDist (l : List (Nat × Node)) :
    akeys (l.map (fun kv => (kv.1, { kv.2 with distanceToNest := none }))) =
      akeys l := by
  induction l with
  | nil => rfl
  | cons hd tl ih => simp [akeys] at ih ⊢

theorem filter_length_lt_of_mem {m : Nat} (p : Nat → Bool) :
    ∀ (l : List Nat), m ∈ l → p m = false → (l.filter p).length < l.length := by
  intro l
  induction l with
  | nil => intro hm; simp at hm
  | cons x tl ih =>
      intro hm hp
      rcases List.mem_cons.mp hm with hx | hx
      · subst hx
        rw [List.filter_cons, if_neg (by simp [hp])]
        calc (tl.filter p).length ≤ tl.length := List.length_filter_le _ _
          _ < (m :: tl).length := by simp
      · by_cases hpx : p x = true
        · rw [List.filter_cons, if_pos hpx]
          simpa [Nat.succ_lt_succ_iff] using ih hx hp
        · rw [List.filter_cons, if_neg hpx]
          calc (tl.filter p).length < tl.length := ih hx hp
            _ ≤ (x :: tl).length := by simp

/-- One full run of the neighbor-relaxation loop `bfsRelax`, started from a
state whose assigned distances are all at most `d1` and whose visited nodes
are all assigned: the queue grows by a list of previously-`Infinity`
neighbors which all receive distance `d1`, every listed neighbor ends up
assigned a distance at most `d1`, no assigned distance changes, the key set
is unchanged, and the measure `queue.length + countNone` is preserved. -/
theorem bfsRelax_spec (visited1 : List Nat) (d1 : Nat) :
    ∀ (ns : List Nat) (nodes : List (Nat × Node)) (queue : List Nat),
    (∀ m ∈ ns, ∃ nd, alookup nodes m = some nd) →
    (∀ n v, distOf nodes n = some v → v ≤ d1) →
    (∀ u ∈ visited1, ∃ v, distOf nodes u = some v) →
    ∃ pushed,
      (Graph.bfsRelax visited1 d1 ns nodes queue).2 = queue ++ pushed ∧
      akeys (Graph.bfsRelax visited1 d1 ns nodes queue).1 = akeys nodes ∧
      (∀ n v, distOf nodes n = some v →
        distOf (Graph.bfsRelax visited1 d1 ns nodes queue).1 n = some v) ∧
      (∀ n v, distOf (Graph.bfsRelax visited1 d1 ns nodes queue).1 n = some v →
        distOf nodes n = some v ∨
          (distOf nodes n = none ∧ v = d1 ∧ n ∈ pushed)) ∧
      (∀ m ∈ pushed, m ∈ ns ∧
        distOf (Graph.bfsRelax visited1 d1 ns nodes queue).1 m = some d1) ∧
      (∀ m ∈ ns, ∃ vm,
        distOf (Graph.bfsRelax visited1 d1 ns nodes queue).1 m = some vm ∧
          vm ≤ d1) ∧
      (Graph.bfsRelax visited1 d1 ns nodes queue).2.length +
          countNone (Graph.bfsRelax visited1 d1 ns nodes queue).1 =
        queue.length + countNone nodes := by
  intro ns
  induction ns with
  | nil =>
      intro nodes queue hpres hub hvis
      rw [Graph.bfsRelax]
      refine ⟨[], (List.append_nil queue).symm, rfl, fun n v h => h,
        fun n v h => Or.inl h, ?_, ?_, rfl⟩
      · intro x hx
        exact absurd hx (List.not_mem_nil x)
      · intro x hx
        exact absurd hx (List.not_mem_nil x)
  | cons m ns ih =>
      intro nodes queue hpres hub hvis
      rw [Graph.bfsRelax]
      by_cases hmv : m ∈ visited1
      · rw [if_pos hmv]
        obtain ⟨pushed, h1, h2, h3, h4, h5, h6, h7⟩ :=
          ih nodes queue (fun x hx => hpres x (List.mem_cons_of_mem _ hx))
            hub hvis
        obtain ⟨vm0, hvm0⟩ := hvis m hmv
        refine ⟨pushed, h1, h2, h3, h4, ?_, ?_, h7⟩
        · intro x hx
          exact ⟨List.mem_cons_of_mem _ (h5 x hx).1, (h5 x hx).2⟩
        · intro x hx
          rcases List.mem_cons.mp hx with rfl | hx2
          · exact ⟨vm0, h3 _ _ hvm0, hub _ _ hvm0⟩
          · exact h6 x hx2
      · rw [if_neg hmv]
        obtain ⟨nd, hlk⟩ := hpres m (List.mem_cons_self _ _)
        rw [hlk]
        dsimp only
        cases hnd : nd.distanceToNest with
        | some e =>
            have he : e ≤ d1 := hub m e (by simp [distOf, hlk, hnd])
            have himp : ¬ (distImproves d1 (some e) = true) := by
              simp [distImproves]
              omega
            rw [if_neg himp]
            obtain ⟨pushed, h1, h2, h3, h4, h5, h6, h7⟩ :=
              ih nodes queue (fun x hx => hpres x (List.mem_cons_of_mem _ hx))
                hub hvis
            refine ⟨pushed, h1, h2, h3, h4, ?_, ?_, h7⟩
            · intro x hx
              exact ⟨List.mem_cons_of_mem _ (h5 x hx).1, (h5 x hx).2⟩
            · intro x hx
              rcases List.mem_cons.mp hx with rfl | hx2
              · exact ⟨e, h3 _ _ (by simp [distOf, hlk, hnd]), he⟩
              · exact h6 x hx2
        | none =>
            have himp : distImproves d1 (none : Option Nat) = true := rfl
            rw [if_pos himp]
            set nodes2 := aset nodes m { nd with distanceToNest := some d1 }
              with hnodes2
            have hdm : distOf nodes m = none := by simp [distOf, hlk, hnd]
            have hpres2 : ∀ x ∈ ns, ∃ nd0, alookup nodes2 x = some nd0 := by
              intro x hx
              by_cases hxm : x = m
              · subst hxm
                exact ⟨_, alookup_aset_self _ _ _⟩
              · obtain ⟨nd0, h0⟩ := hpres x (List.mem_cons_of_mem _ hx)
                refine ⟨nd0, ?_⟩
                rw [hnodes2, alookup_aset_ne _ _ _ _ (fun h => hxm h.symm)]
                exact h0
            have hub2 : ∀ n v, distOf nodes2 n = some v → v ≤ d1 := by
              intro n v h
              by_cases hnm : n = m
              · subst hnm
                rw [hnodes2, distOf_aset] at h
                simp at h
                omega
              · rw [hnodes2, distOf_aset_ne _ _ _ _ (fun hh => hnm hh.symm)] at h
                exact hub n v h
            have hvis2 : ∀ u ∈ visited1, ∃ v, distOf nodes2 u = some v := by
              intro u hu
              by_cases hum : u = m
              · subst hum
                exact ⟨d1, by rw [hnodes2, distOf_aset]⟩
              · obtain ⟨v, hv⟩ := hvis u hu
                refine ⟨v, ?_⟩
                rw [hnodes2, distOf_aset_ne _ _ _ _ (fun hh => hum hh.symm)]
                exact hv
            obtain ⟨pushed, h1, h2, h3, h4, h5, h6, h7⟩ :=
              ih nodes2 (queue ++ [m]) hpres2 hub2 hvis2
            have hm2 : distOf nodes2 m = some d1 := by
              rw [hnodes2, distOf_aset]
            refine ⟨m :: pushed, ?_, ?_, ?_, ?_, ?_, ?_, ?_⟩
            · rw [h1]
              simp
            · rw [h2, hnodes2]
              exact akeys_aset_of_mem _ _ _ (mem_akeys_of_alookup hlk)
            · intro n v h
              have hnm : n ≠ m := by
                intro hh
                subst hh
                rw [hdm] at h
                exact Option.noConfusion h
              refine h3 n v ?_
              rw [hnodes2, distOf_aset_ne _ _ _ _ (Ne.symm hnm)]
              exact h
            · intro n v h
              rcases h4 n v h with hL | ⟨hnone2, rfl, hp⟩
              · by_cases hnm : n = m
                · subst hnm
                  rw [hm2] at hL
                  injection hL with hL
                  exact Or.inr ⟨hdm, hL.symm, List.mem_cons_self _ _⟩
                · rw [hnodes2, distOf_aset_ne _ _ _ _ (Ne.symm hnm)] at hL
                  exact Or.inl hL
              · have hnm : n ≠ m := by
                  intro hh
                  subst hh
                  rw [hm2] at hnone2
                  exact Option.noConfusion hnone2
                rw [hnodes2, distOf_aset_ne _ _ _ _ (Ne.symm hnm)] at hnone2
                exact Or.inr ⟨hnone2, rfl, List.mem_cons_of_mem _ hp⟩
            · intro x hx
              rcases List.mem_cons.mp hx with rfl | hx2
              · exact ⟨List.mem_cons_self _ _, h3 _ _ hm2⟩
              · obtain ⟨hmem2, hfin⟩ := h5 x hx2
                exact ⟨List.mem_cons_of_mem _ hmem2, hfin⟩
            · intro x hx
              rcases List.mem_cons.mp hx with rfl | hx2
              · exact ⟨d1, h3 _ _ hm2, le_refl d1⟩
              · exact h6 x hx2
            · have hcn : countNone nodes = countNone nodes2 + 1 := by
                rw [hnodes2]
                exact countNone_aset_assign nodes m nd _ d1 hlk hnd rfl
              have hlen : (queue ++ [m]).length = queue.length + 1 := by simp
              rw [h7, hlen, hcn]
              omega

/-- The queue loop `bfsLoop`, run with enough fuel from any state satisfying
`BfsInv`: assigned distances are preserved, and the final table is sound
(every assigned distance is a walk length to `T`) and fully relaxed (every
neighbor of an assigned node is assigned at most one more). -/
theorem bfsLoop_spec (g : Graph) (T : Nat) (hsymm : g.SymmEdges) :
    ∀ (fuel : Nat) (nodes : List (Nat × Node)) (queue visited : List Nat),
    BfsInv g T nodes queue visited →
    queue.length + countNone nodes ≤ fuel →
    (∀ n v, distOf nodes n = some v →
      distOf (Graph.bfsLoop g.edges fuel nodes queue visited) n = some v) ∧
    (∀ n v, distOf (Graph.bfsLoop g.edges fuel nodes queue visited) n = some v →
      WalkLen g n T v) ∧
    (∀ n v, distOf (Graph.bfsLoop g.edges fuel nodes queue visited) n = some v →
      ∀ m ∈ g.getNeighbors n, ∃ vm,
        distOf (Graph.bfsLoop g.edges fuel nodes queue visited) m = some vm ∧
          vm ≤ v + 1) := by
  intro fuel
  induction fuel with
  | zero =>
      intro nodes queue visited inv hle
      have hq : queue = [] := List.length_eq_zero.mp (by omega)
      subst hq
      refine ⟨fun n v h => h, inv.sound, ?_⟩
      intro n v h m hm
      have hvisn : n ∈ visited := by
        rcases inv.assignedInFrontier n v h with hv | hq2
        · exact hv
        · exact absurd hq2 (List.not_mem_nil n)
      exact inv.visitedRelaxed n hvisn v h m hm
  | succ fuel ih =>
      intro nodes queue visited inv hle
      cases queue with
      | nil =>
          refine ⟨fun n v h => h, inv.sound, ?_⟩
          intro n v h m hm
          have hvisn : n ∈ visited := by
            rcases inv.assignedInFrontier n v h with hv | hq2
            · exact hv
            · exact absurd hq2 (List.not_mem_nil n)
          exact inv.visitedRelaxed n hvisn v h m hm
      | cons currentId rest =>
          rw [Graph.bfsLoop]
          obtain ⟨vs, hf, hsorted, hhead⟩ := inv.queueSorted
          obtain ⟨v0, vsr, rfl, hd0, hfr⟩ := forall2_cons_left hf
          by_cases hcv : currentId ∈ visited
          · rw [if_pos hcv]
            have inv2 : BfsInv g T nodes rest visited := by
              refine ⟨inv.edgesWF, inv.sound, inv.visitedAssigned,
                inv.visitedRelaxed, ?_, ?_⟩
              · intro n v h
                rcases inv.assignedInFrontier n v h with hv | hq2
                · exact Or.inl hv
                · rcases List.mem_cons.mp hq2 with rfl | h2
                  · exact Or.inl hcv
                  · exact Or.inr h2
              · refine ⟨vsr, hfr, (List.pairwise_cons.mp hsorted).2, ?_⟩
                intro n v h h0 hh0
                have h1 : v ≤ v0 + 1 := hhead n v h v0 rfl
                have h2 : v0 ≤ h0 :=
                  (List.pairwise_cons.mp hsorted).1 h0 (head_eq_some_mem hh0)
                omega
            exact ih nodes rest visited inv2
              (by simp only [List.length_cons] at hle; omega)
          · rw [if_neg hcv]
            obtain ⟨nd, hlk, hnd⟩ := distOf_eq_some hd0
            rw [hlk]
            dsimp only
            rw [hnd]
            dsimp only
            have hub : ∀ n v, distOf nodes n = some v → v ≤ v0 + 1 :=
              fun n v h => hhead n v h v0 rfl
            have hpres : ∀ x ∈ (alookup g.edges currentId).getD [],
                ∃ nd0, alookup nodes x = some nd0 := by
              intro x hx
              cases hek : alookup g.edges currentId with
              | none => rw [hek] at hx; exact absurd hx (List.not_mem_nil x)
              | some l =>
                  rw [hek] at hx
                  simp only [Option.getD_some] at hx
                  exact inv.edgesWF (currentId, l) (mem_of_alookup hek) x hx
            have hvis1 : ∀ u ∈ currentId :: visited,
                ∃ v, distOf nodes u = some v := by
              intro u hu
              rcases List.mem_cons.mp hu with rfl | hu2
              · exact ⟨v0, hd0⟩
              · exact inv.visitedAssigned u hu2
            obtain ⟨pushed, h1, h2, h3, h4, h5, h6, h7⟩ :=
              bfsRelax_spec (currentId :: visited) (v0 + 1)
                ((alookup g.edges currentId).getD []) nodes rest hpres hub hvis1
            have hnsnb : (alookup g.edges currentId).getD [] =
                g.getNeighbors currentId := rfl
            have inv2 : BfsInv g T
                (Graph.bfsRelax (currentId :: visited) (v0 + 1)
                  ((alookup g.edges currentId).getD []) nodes rest).1
                (Graph.bfsRelax (currentId :: visited) (v0 + 1)
                  ((alookup g.edges currentId).getD []) nodes rest).2
                (currentId :: visited) := by
              refine ⟨?_, ?_, ?_, ?_, ?_, ?_⟩
              · intro kv hkv m hm
                obtain ⟨nd0, hnd0⟩ := inv.edgesWF kv hkv m hm
                have hmk : m ∈ akeys (Graph.bfsRelax (currentId :: visited)
                    (v0 + 1) ((alookup g.edges currentId).getD [])
                    nodes rest).1 := by
                  rw [h2]
                  exact mem_akeys_of_alookup hnd0
                exact alookup_isSome_of_mem_akeys hmk
              · intro n v h
                rcases h4 n v h with hL | ⟨hnone2, rfl, hp⟩
                · exact inv.sound n v hL
                · have hnns : n ∈ g.getNeighbors currentId := by
                    rw [← hnsnb]
                    exact (h5 n hp).1
                  exact WalkLen.step (neighbors_symm hsymm hnns)
                    (inv.sound currentId v0 hd0)
              · intro u hu
                rcases List.mem_cons.mp hu with rfl | hu2
                · exact ⟨v0, h3 _ _ hd0⟩
                · obtain ⟨v, hv⟩ := inv.visitedAssigned u hu2
                  exact ⟨v, h3 _ _ hv⟩
              · intro u hu du hdu m hm
                rcases List.mem_cons.mp hu with rfl | hu2
                · have ha := h3 _ _ hd0
                  rw [ha] at hdu
                  injection hdu with hdu
                  subst hdu
                  obtain ⟨vm, hvm, hvmle⟩ := h6 m (by rw [hnsnb]; exact hm)
                  exact ⟨vm, hvm, by omega⟩
                · obtain ⟨du0, hdu0⟩ := inv.visitedAssigned u hu2
                  have hp0 := h3 _ _ hdu0
                  rw [hp0] at hdu
                  injection hdu with hdu
                  subst hdu
                  obtain ⟨vm, hvm, hvmle⟩ :=
                    inv.visitedRelaxed u hu2 du0 hdu0 m hm
                  exact ⟨vm, h3 _ _ hvm, hvmle⟩
              · intro n v h
                rcases h4 n v h with hL | ⟨hnone2, rfl, hp⟩
                · rcases inv.assignedInFrontier n v hL with hv | hq2
                  · exact Or.inl (List.mem_cons_of_mem _ hv)
                  · rcases List.mem_cons.mp hq2 with rfl | hr2
                    · exact Or.inl (List.mem_cons_self _ _)
                    · refine Or.inr ?_
                      rw [h1]
                      exact List.mem_append_left _ hr2
                · refine Or.inr ?_
                  rw [h1]
                  exact List.mem_append_right _ hp
              · refine ⟨vsr ++ pushed.map (fun _ => v0 + 1), ?_, ?_, ?_⟩
                · rw [h1]
                  exact forall2_append
                    (List.Forall₂.imp (fun a b hab => h3 a b hab) hfr)
                    (forall2_map_const pushed (v0 + 1) (fun x hx => (h5 x hx).2))
                · rw [List.pairwise_append]
                  refine ⟨(List.pairwise_cons.mp hsorted).2,
                    pairwise_le_map_const _ _, ?_⟩
                  intro a ha b hb
                  obtain ⟨n1, hn1, hrn1⟩ := forall2_mem_right hfr a ha
                  have ha2 : a ≤ v0 + 1 := hub n1 a hrn1
                  obtain ⟨x, hx1, hx2⟩ := List.mem_map.mp hb
                  have hb2 : v0 + 1 = b := hx2
                  omega
                · intro n v h h0 hh0
                  have hv1 : v ≤ v0 + 1 := by
                    rcases h4 n v h with hL | ⟨hn2, rfl, hp2⟩
                    · exact hub n v hL
                    · omega
                  have hmem := head_eq_some_mem hh0
                  rcases List.mem_append.mp hmem with hin | hin
                  · have h2b : v0 ≤ h0 :=
                      (List.pairwise_cons.mp hsorted).1 h0 hin
                    omega
                  · obtain ⟨x, hx1, hx2⟩ := List.mem_map.mp hin
                    have h2b : v0 + 1 = h0 := hx2
                    omega
            have hm2 : (Graph.bfsRelax (currentId :: visited) (v0 + 1)
                  ((alookup g.edges currentId).getD []) nodes rest).2.length +
                countNone (Graph.bfsRelax (currentId :: visited) (v0 + 1)
                  ((alookup g.edges currentId).getD []) nodes rest).1 ≤
                fuel := by
              rw [h7]
              simp only [List.length_cons] at hle
              omega
            obtain ⟨ihp, ihs, ihr⟩ := ih _ _ _ inv2 hm2
            exact ⟨fun n v h => ihp n v (h3 n v h), ihs, ihr⟩

/-- Completeness along a walk: in a fully relaxed table whose target holds
distance 0, every node with a walk of length `L` to the target is assigned a
distance of at most `L`. -/
theorem bfs_complete_aux (g : Graph) (nodes2 : List (Nat × Node))
    (hrel : ∀ n v, distOf nodes2 n = some v → ∀ m ∈ g.getNeighbors n,
      ∃ vm, distOf nodes2 m = some vm ∧ vm ≤ v + 1)
    (hsymm : g.SymmEdges) :
    ∀ N T0 L, WalkLen g N T0 L → distOf nodes2 T0 = some 0 →
      ∃ v, distOf nodes2 N = some v ∧ v ≤ L := by
  intro N T0 L hw
  induction hw with
  | refl a =>
      intro h0
      exact ⟨0, h0, Nat.le_refl 0⟩
  | step hab htail ihw =>
      intro h0
      obtain ⟨vb, hvb, hle⟩ := ihw h0
      obtain ⟨va, hva, hle2⟩ := hrel _ vb hvb _ (neighbors_symm hsymm hab)
      exact ⟨va, hva, by omega⟩

/-- C1: on every graph with well-formed, symmetric adjacency lists (as built
by `addNode`/`addEdge`) and every present target `T`, after
`calculateDistances T` the target's stored distance is 0, every node with a
shortest hop-path of length `L` to `T` stores exactly `L`, and every node
unreachable from `T` stores `Infinity` (`none`). -/
theorem c1_calculateDistances_correct (g : Graph) (T : Nat)
    (hwf : g.WFEdges) (hsymm : g.SymmEdges) (hT : T ∈ akeys g.nodes) :
    distOf (g.calculateDistances T).nodes T = some 0 ∧
    (∀ N L, ShortestPathLen g N T L →
      distOf (g.calculateDistances T).nodes N = some L) ∧
    (∀ N, Unreachable g N T →
      distOf (g.calculateDistances T).nodes N = none) := by
  have hT0 : T ∈ akeys (g.nodes.map
      (fun kv => (kv.1, { kv.2 with distanceToNest := none }))) := by
    rw [akeys_resetDist]
    exact hT
  obtain ⟨nd0, hnd0⟩ := alookup_isSome_of_mem_akeys hT0
  have hcd : (g.calculateDistances T).nodes =
      Graph.bfsLoop g.edges (g.nodes.length + 1)
        (aset (g.nodes.map (fun kv => (kv.1, { kv.2 with distanceToNest := none })))
          T { nd0 with distanceToNest := some 0 }) [T] [] := by
    rw [Graph.calculateDistances]
    dsimp only
    rw [hnd0]
  rw [hcd]
  set nodes1 := aset (g.nodes.map
      (fun kv => (kv.1, { kv.2 with distanceToNest := none })))
    T { nd0 with distanceToNest := some 0 } with hn1
  have hchar : ∀ n v, distOf nodes1 n = some v → n = T ∧ v = 0 := by
    intro n v h
    by_cases hnT : n = T
    · subst hnT
      rw [hn1, distOf_aset] at h
      simp at h
      exact ⟨rfl, h.symm⟩
    · rw [hn1, distOf_aset_ne _ _ _ _ (fun hh => hnT hh.symm),
        distOf_resetDist] at h
      exact absurd h (by simp)
  have hT00 : distOf nodes1 T = some 0 := by
    rw [hn1, distOf_aset]
  have inv0 : BfsInv g T nodes1 [T] [] := by
    refine ⟨?_, ?_, ?_, ?_, ?_, ?_⟩
    · intro kv hkv m hm
      have hmk : m ∈ akeys nodes1 := by
        rw [hn1, akeys_aset_of_mem _ _ _ hT0, akeys_resetDist]
        exact hwf kv hkv m hm
      exact alookup_isSome_of_mem_akeys hmk
    · intro n v h
      obtain ⟨rfl, rfl⟩ := hchar n v h
      exact WalkLen.refl n
    · intro u hu
      exact absurd hu (List.not_mem_nil u)
    · intro u hu
      exact absurd hu (List.not_mem_nil u)
    · intro n v h
      obtain ⟨rfl, rfl⟩ := hchar n v h
      exact Or.inr (List.mem_cons_self _ _)
    · refine ⟨[0], List.Forall₂.cons hT00 List.Forall₂.nil, ?_, ?_⟩
      · simp
      · intro n v h h0 hh0
        obtain ⟨rfl, rfl⟩ := hchar n v h
        omega
  have hmeas : ([T] : List Nat).length + countNone nodes1 ≤
      g.nodes.length + 1 := by
    have h1 := countNone_le_akeys nodes1
    have h2 : (akeys nodes1).length = g.nodes.length := by
      rw [hn1, akeys_aset_of_mem _ _ _ hT0, akeys_resetDist, akeys]
      simp
    simp only [List.length_cons, List.length_nil]
    omega
  obtain ⟨hmono, hsound, hrelax⟩ :=
    bfsLoop_spec g T hsymm (g.nodes.length + 1) nodes1 [T] [] inv0 hmeas
  refine ⟨hmono T 0 hT00, ?_, ?_⟩
  · intro N L hSL
    obtain ⟨hwalk, hmin⟩ := hSL
    obtain ⟨v, hv, hvle⟩ :=
      bfs_complete_aux g _ hrelax hsymm N T L hwalk (hmono T 0 hT00)
    have hge : L ≤ v := hmin v (hsound N v hv)
    have hveq : v = L := le_antisymm hvle hge
    rw [← hveq]
    exact hv
  · intro N hUN
    cases hfin : distOf (Graph.bfsLoop g.edges (g.nodes.length + 1)
        nodes1 [T] []) N with
    | none => rfl
    | some v => exact absurd ⟨v, hsound N v hfin⟩ hUN

/-- Witness for C1 on the three-node path graph 0 – 1 – 2 with target 2. -/
theorem c1_calculateDistances_correct_witness :
    lineGraph.WFEdges ∧ lineGraph.SymmEdges ∧ 2 ∈ akeys lineGraph.nodes ∧
    distOf (lineGraph.calculateDistances 2).nodes 2 = some 0 :=
  ⟨by decide, by decide, by decide,
    (c1_calculateDistances_correct lineGraph 2 (by decide) (by decide)
      (by decide)).1⟩

end AntNet
